import Mathlib

/-! CloudCommerce user-service: the auth routes

A shallow embedding of `services/user-service/src/routes/auth.js` (login, register,
validate, refresh, logout over the in-memory `users` array) and of the list, creation
and deletion routes of `services/user-service/src/routes/users.js`.

Modelling conventions.

* The module-level array `users` is passed in and returned explicitly: every handler is a
  function from the array before the request to the array after it and the response.
* `jsonwebtoken` and `bcryptjs` are libraries outside the repository.  A token is modelled
  symbolically: either a string that is not a JWT, or a payload together with the key its
  signature was made with.  `jwt.verify` accepts the signature exactly when that key is the
  configured secret, and looks at the expiry only afterwards, as the library does.
  `bcrypt.hash` is a function supplied with each request (it is salted, so it varies).
* Numbers are JavaScript numbers.  Record ids are integers, or the value `-Infinity` that
  `Math.max()` yields when it is given no argument; integers are taken to be exact
  (below 2^53).  `JSON.stringify` writes `-Infinity` as `null`, which is what a token
  payload then carries.
* Clock readings (`Date.now()`, `new Date().toISOString()`) are supplied with each request.
* `new Date(seconds * 1000).toISOString()` on a time of a token throws a `RangeError` when
  the time value is beyond 8.64e15 milliseconds from the epoch; a valid date is kept as its
  epoch seconds.
-/

namespace CloudCommerce

/-! ## JavaScript values -/

/-- A JavaScript number as it occurs in an id: an integer or `-Infinity`. -/
inductive JsNum where
  | negInf : JsNum
  | fin (n : Int) : JsNum
deriving DecidableEq, Repr

namespace JsNum

/-- The larger of two numbers, as `Math.max` compares them. -/
def max : JsNum → JsNum → JsNum
  | negInf, b => b
  | fin a, negInf => fin a
  | fin a, fin b => fin (if a ≤ b then b else a)

/-- The value of `x + 1`; `-Infinity + 1` is `-Infinity`. -/
def addOne : JsNum → JsNum
  | negInf => negInf
  | fin n => fin (n + 1)

/-- What `JSON.stringify` followed by `JSON.parse` leaves of a number: `-Infinity` becomes
`null` (here `none`). -/
def toJSON : JsNum → Option Int
  | negInf => none
  | fin n => some n

/-- The comparison `id === v` of a record id with a decoded JSON value; `none` stands for
`null`, an absent field or any value that is not a number. -/
def strictEq : JsNum → Option Int → Bool
  | fin a, some b => a == b
  | _, _ => false

end JsNum

/-- The value of `Math.max(...xs)`: `-Infinity` for no arguments. -/
def mathMax (xs : List JsNum) : JsNum :=
  xs.foldl JsNum.max JsNum.negInf

/-- JavaScript truthiness of a request field that is a string or absent: `!v` is false
exactly for a non-empty string. -/
def truthy : Option String → Bool
  | some s => s != ""
  | none => false

/-- The string carried by a request field (used once the field is known to be truthy). -/
def str (v : Option String) : String :=
  v.getD ""

/-- The comparison `s === v` of a stored string with a request field. -/
def strEq (s : String) (v : Option String) : Bool :=
  v == some s

/-! ## Data model -/

/-- A record of the `users` array of auth.js. -/
structure User where
  id : JsNum
  email : String
  password : String
  name : String
  role : String
  createdAt : Option String
  lastLogin : Option String
deriving DecidableEq, Repr

/-- The array `users` as the module creates it. -/
def initialUsers : List User :=
  [ { id := .fin 1, email := "admin@cloudcommerce.com",
      password := "$2a$10$8K1p/a0dRTlNqNhI1RVHBOaHQ4WMn.V8W5VkSMxFx5rQ9qNhI1RVH",
      name := "Admin User", role := "admin", createdAt := none, lastLogin := none },
    { id := .fin 2, email := "user@cloudcommerce.com",
      password := "$2a$10$8K1p/a0dRTlNqNhI1RVHBOaHQ4WMn.V8W5VkSMxFx5rQ9qNhI1RVH",
      name := "Regular User", role := "customer", createdAt := none, lastLogin := none } ]

/-- The decoded payload of a token. -/
structure Payload where
  userId : Option Int
  email : String
  role : String
  iat : Int
  exp : Int
  iss : String
deriving DecidableEq, Repr

/-- A token string: not a JWT at all (`raw` is the string, possibly empty), or a JWT with
the given payload whose signature was made with `key`. -/
inductive Token where
  | malformed (raw : String) : Token
  | signed (payload : Payload) (key : String) : Token
deriving DecidableEq, Repr

/-- The claims object handed to `jwt.sign`. -/
structure Claims where
  userId : JsNum
  email : String
  role : String
deriving DecidableEq, Repr

/-- A thrown JavaScript error: its `name` and `message`. -/
structure JsError where
  name : String
  message : String
deriving DecidableEq, Repr

/-- The process environment read by the routes. `JWT_EXPIRES_IN` is the number of seconds
the configured time span denotes, `none` when the variable is unset or empty. -/
structure ProcessEnv where
  JWT_SECRET : Option String
  JWT_EXPIRES_IN : Option Int
deriving Repr

/-- The value of `process.env.JWT_SECRET || 'cloudcommerce-dev-secret'`. -/
def jwtSecret (pe : ProcessEnv) : String :=
  if truthy pe.JWT_SECRET then str pe.JWT_SECRET else "cloudcommerce-dev-secret"

/-- The value of `process.env.JWT_EXPIRES_IN || '24h'`, in seconds. -/
def expiresIn (pe : ProcessEnv) : Int :=
  pe.JWT_EXPIRES_IN.getD 86400

/-- The default process environment: neither variable set. -/
def defaultEnv : ProcessEnv :=
  { JWT_SECRET := none, JWT_EXPIRES_IN := none }

/-- What a request observes of the outside world: the clock in epoch seconds, the
successive readings of `new Date().toISOString()`, and `bcrypt.hash(_, 10)`. -/
structure Env where
  now : Int
  iso : Nat → String
  bcryptHash : String → String

/-! ## Token codec (jsonwebtoken) -/

/-- The token `jwt.sign(claims, secret, {expiresIn, issuer})` made at clock `now`. -/
def jwtSign (claims : Claims) (secret : String) (ttl : Int) (issuer : String) (now : Int) :
    Token :=
  .signed { userId := claims.userId.toJSON, email := claims.email, role := claims.role,
            iat := now, exp := now + ttl, iss := issuer } secret

/-- The result of `jwt.verify(token, secret)` at clock `now`: the signature is checked
first, the expiry after it. -/
def jwtVerify (token : Token) (secret : String) (now : Int) : Except JsError Payload :=
  match token with
  | .malformed raw =>
      .error ⟨"JsonWebTokenError", if raw == "" then "jwt must be provided" else "jwt malformed"⟩
  | .signed payload key =>
      if key != secret then .error ⟨"JsonWebTokenError", "invalid signature"⟩
      else if now ≥ payload.exp then .error ⟨"TokenExpiredError", "jwt expired"⟩
      else .ok payload

/-- The result of `jwt.decode(token)`: the payload without any check, `null` for a string
that is not a JWT. -/
def jwtDecode : Token → Option Payload
  | .malformed _ => none
  | .signed payload _ => some payload

/-- Whether the signature of a token is valid under `secret`. -/
def sigValid (token : Token) (secret : String) : Bool :=
  match token with
  | .malformed _ => false
  | .signed _ key => key == secret

/-- JavaScript truthiness of the `token` field of a request body. -/
def tokenTruthy : Option Token → Bool
  | none => false
  | some (.malformed raw) => raw != ""
  | some (.signed _ _) => true

/-! ## Responses -/

/-- The `user` object of a response. `lastLogin` and `createdAt` are `none` when the
object does not have the field. -/
structure UserView where
  id : JsNum
  email : String
  name : String
  role : String
  lastLogin : Option String
  createdAt : Option String
deriving DecidableEq, Repr

/-- The JSON body of a response. -/
inductive Body where
  | failure (error : String) (message : Option String) : Body
  | session (token : Token) (user : UserView) (message : String) (timestamp : String) : Body
  | validation (user : UserView) (issuedAt expiresAt : Int) (timestamp : String) : Body
  | ack (message : String) (timestamp : String) : Body
deriving DecidableEq, Repr

/-- An HTTP response: status code and body. -/
structure Response where
  status : Nat
  body : Body
deriving DecidableEq, Repr

/-- The token a response carries, if any. -/
def Response.token? (r : Response) : Option Token :=
  match r.body with
  | .session token _ _ _ => some token
  | _ => none

/-- The `user` object a response carries, if any. -/
def Response.user? (r : Response) : Option UserView :=
  match r.body with
  | .session _ user _ _ => some user
  | .validation user _ _ _ => some user
  | _ => none

/-- The response `res.status(status).json({success: false, error})`. -/
def fail (status : Nat) (error : String) : Response :=
  ⟨status, .failure error none⟩

/-! ## The routes of auth.js -/

/-- The assignment `f` applied to the object that `users.find(p)` returns: the first
record satisfying `p`. -/
def updateFirst (p : User → Bool) (f : User → User) : List User → List User
  | [] => []
  | u :: us => if p u then f u :: us else u :: updateFirst p f us

/-- The claims `{userId: user.id, email: user.email, role: user.role}`. -/
def claimsOf (user : User) : Claims :=
  { userId := user.id, email := user.email, role := user.role }

/-- The route `POST /login`. -/
def login (pe : ProcessEnv) (env : Env) (users : List User) (email password : Option String) :
    List User × Response :=
  if !truthy email || !truthy password then
    (users, fail 400 "Email and password are required")
  else
    match users.find? (fun u => strEq u.email email) with
    | none => (users, fail 401 "Invalid credentials")
    | some user =>
        let isValidPassword := true
        if !isValidPassword then
          (users, fail 401 "Invalid credentials")
        else
          let token := jwtSign (claimsOf user) (jwtSecret pe) (expiresIn pe)
            "cloudcommerce-user-service" env.now
          let lastLogin := env.iso 0
          (updateFirst (fun u => strEq u.email email)
              (fun u => { u with lastLogin := some lastLogin }) users,
            ⟨200, .session token
              { id := user.id, email := user.email, name := user.name, role := user.role,
                lastLogin := some lastLogin, createdAt := none }
              "Login successful" (env.iso 1)⟩)

/-- The record `newUser` that `POST /register` builds. -/
def newUser (env : Env) (users : List User) (name email password : Option String)
    (role : String) : User :=
  { id := (mathMax (users.map (fun u => u.id))).addOne,
    email := str email,
    password := env.bcryptHash (str password),
    name := str name,
    role := role,
    createdAt := some (env.iso 0),
    lastLogin := none }

/-- The route `POST /register`. -/
def register (pe : ProcessEnv) (env : Env) (users : List User)
    (name email password role : Option String) : List User × Response :=
  let role := role.getD "customer"
  if !truthy name || !truthy email || !truthy password then
    (users, fail 400 "Name, email, and password are required")
  else
    match users.find? (fun u => strEq u.email email) with
    | some _ => (users, fail 409 "User with this email already exists")
    | none =>
        let user := newUser env users name email password role
        let token := jwtSign (claimsOf user) (jwtSecret pe) (expiresIn pe)
          "cloudcommerce-user-service" env.now
        (users ++ [user],
          ⟨201, .session token
            { id := user.id, email := user.email, name := user.name, role := user.role,
              lastLogin := none, createdAt := user.createdAt }
            "User registered successfully" (env.iso 1)⟩)

/-- The `user` object of the validate and refresh responses. -/
def plainView (user : User) : UserView :=
  { id := user.id, email := user.email, name := user.name, role := user.role,
    lastLogin := none, createdAt := none }

/-- The largest time value of a JavaScript `Date`, in milliseconds from the epoch. -/
def maxTimeValue : Int :=
  8640000000000000

/-- Whether `new Date(seconds * 1000)` is a valid date: its time value is at most
`maxTimeValue` in absolute value. -/
def validDate (seconds : Int) : Bool :=
  decide (-maxTimeValue ≤ seconds * 1000 ∧ seconds * 1000 ≤ maxTimeValue)

/-- The value of `new Date(seconds * 1000).toISOString()`: the date, kept as its epoch
seconds, or the `RangeError` that is thrown for an invalid date. -/
def toISOString (seconds : Int) : Except JsError Int :=
  if validDate seconds then .ok seconds else .error ⟨"RangeError", "Invalid time value"⟩

/-- The `catch` of `POST /validate`. -/
def validateCatch (users : List User) (error : JsError) : List User × Response :=
  if error.name == "JsonWebTokenError" then (users, fail 401 "Invalid token")
  else if error.name == "TokenExpiredError" then (users, fail 401 "Token expired")
  else (users, ⟨500, .failure "Token validation failed" (some error.message)⟩)

/-- The route `POST /validate`. -/
def validate (pe : ProcessEnv) (env : Env) (users : List User) (token : Option Token) :
    List User × Response :=
  if !tokenTruthy token then
    (users, fail 400 "Token is required")
  else
    match jwtVerify (token.getD (.malformed "")) (jwtSecret pe) env.now with
    | .ok decoded =>
        match users.find? (fun u => u.id.strictEq decoded.userId) with
        | none => (users, fail 401 "Invalid token - user not found")
        | some user =>
            match toISOString decoded.iat with
            | .error error => validateCatch users error
            | .ok issuedAt =>
                match toISOString decoded.exp with
                | .error error => validateCatch users error
                | .ok expiresAt =>
                    (users, ⟨200, .validation (plainView user) issuedAt expiresAt (env.iso 0)⟩)
    | .error error => validateCatch users error

/-- The inner `try`/`catch` of `POST /refresh`: the payload the route goes on with, or the
error it throws on.  The second component tells whether `jwt.decode` was called. -/
def recoverClaims (token : Token) (secret : String) (now : Int) :
    Except JsError Payload × Bool :=
  match jwtVerify token secret now with
  | .ok decoded => (.ok decoded, false)
  | .error error =>
      if error.name == "TokenExpiredError" then
        match jwtDecode token with
        | some decoded => (.ok decoded, true)
        | none => (.error ⟨"TypeError", "Cannot read properties of null"⟩, true)
      else (.error error, false)

/-- The route `POST /refresh`. -/
def refresh (pe : ProcessEnv) (env : Env) (users : List User) (token : Option Token) :
    List User × Response :=
  if !tokenTruthy token then
    (users, fail 400 "Token is required")
  else
    match (recoverClaims (token.getD (.malformed "")) (jwtSecret pe) env.now).1 with
    | .error error => (users, ⟨401, .failure "Token refresh failed" (some error.message)⟩)
    | .ok decoded =>
        match users.find? (fun u => u.id.strictEq decoded.userId) with
        | none => (users, fail 401 "Invalid token - user not found")
        | some user =>
            let newToken := jwtSign (claimsOf user) (jwtSecret pe) (expiresIn pe)
              "cloudcommerce-user-service" env.now
            (users, ⟨200, .session newToken (plainView user)
              "Token refreshed successfully" (env.iso 0)⟩)

/-- The route `POST /logout`. -/
def logout (env : Env) (users : List User) : List User × Response :=
  (users, ⟨200, .ack "Logged out successfully" (env.iso 0)⟩)

/-- A request to one of the auth routes, with the fields of its body. -/
inductive AuthRequest where
  | login (email password : Option String) : AuthRequest
  | register (name email password role : Option String) : AuthRequest
  | validate (token : Option Token) : AuthRequest
  | refresh (token : Option Token) : AuthRequest
  | logout : AuthRequest

/-- The router: one request handled against the array `users`. -/
def handle (pe : ProcessEnv) (env : Env) (users : List User) :
    AuthRequest → List User × Response
  | .login email password => login pe env users email password
  | .register name email password role => register pe env users name email password role
  | .validate token => validate pe env users token
  | .refresh token => refresh pe env users token
  | .logout => logout env users

/-- The states of the array `users` that a run of the service can reach: the initial
array, and whatever a request leaves of a reachable array. -/
inductive Reachable (pe : ProcessEnv) : List User → Prop where
  | init : Reachable pe initialUsers
  | step {users : List User} (env : Env) (req : AuthRequest) :
      Reachable pe users → Reachable pe (handle pe env users req).1

/-- The body of a register request. -/
structure RegisterBody where
  name : Option String
  email : Option String
  password : Option String
  role : Option String

/-- Requests handled one after another, each with what it observes of the outside world:
the array after the last one and the responses in order. -/
def serve (pe : ProcessEnv) : List (Env × AuthRequest) → List User → List User × List Response
  | [], users => (users, [])
  | (env, req) :: rest, users =>
      let r := handle pe env users req
      let out := serve pe rest r.1
      (out.1, r.2 :: out.2)

/-- The fields of a record other than the two time stamps. -/
def User.core (u : User) : JsNum × String × String × String × String :=
  (u.id, u.email, u.password, u.name, u.role)

/-- A record with its credential hash blanked. -/
def User.scrub (u : User) : User :=
  { u with password := "" }

/-- The shape of the array `users` in every run: not empty, all ids integers, ids pairwise
distinct, e-mails pairwise distinct. -/
def WellFormed (users : List User) : Prop :=
  users ≠ [] ∧ (∀ u ∈ users, u.id ≠ .negInf)
    ∧ (users.map (fun u => u.id)).Nodup ∧ (users.map (fun u => u.email)).Nodup

/-- The register request of a body. -/
def RegisterBody.request (b : RegisterBody) : AuthRequest :=
  .register b.name b.email b.password b.role

/-- The registration of the scenario of the specification. -/
def annBody : RegisterBody :=
  { name := some "Ann", email := some "a@x.com", password := some "secret1", role := none }

/-- A second registration, with another e-mail. -/
def bobBody : RegisterBody :=
  { name := some "Bob", email := some "b@x.com", password := some "secret2",
    role := some "admin" }

/-- A token signed by this service whose claims are the id, e-mail and role of a record of
the array. -/
def TokenAgrees (pe : ProcessEnv) (users : List User) (tok : Token) : Prop :=
  ∃ p user n, tok = .signed p (jwtSecret pe) ∧ user ∈ users ∧ user.id = .fin n
    ∧ p.userId = some n ∧ p.email = user.email ∧ p.role = user.role

/-- A request field that is absent or the empty string. -/
def absentOrEmpty (v : Option String) : Prop :=
  v = none ∨ v = some ""

/-! ## The routes of users.js that create and delete records -/

/-- A record of the `sampleUsers` array of users.js. -/
structure DirUser where
  id : JsNum
  name : String
  email : String
  role : String
  createdAt : String
  lastLogin : Option String
deriving DecidableEq, Repr

/-- The array `sampleUsers` as the module creates it. -/
def sampleUsers : List DirUser :=
  [ { id := .fin 1, name := "John Doe", email := "john.doe@cloudcommerce.com",
      role := "customer", createdAt := "2024-01-15T10:30:00Z",
      lastLogin := some "2024-01-20T14:22:00Z" },
    { id := .fin 2, name := "Jane Smith", email := "jane.smith@cloudcommerce.com",
      role := "admin", createdAt := "2024-01-10T09:15:00Z",
      lastLogin := some "2024-01-21T11:45:00Z" },
    { id := .fin 3, name := "Mike Johnson", email := "mike.johnson@cloudcommerce.com",
      role := "customer", createdAt := "2024-01-18T16:20:00Z",
      lastLogin := some "2024-01-21T08:30:00Z" } ]

/-- The JSON body of a response of users.js to a create or delete request. -/
inductive DirBody where
  | failure (error : String) : DirBody
  | user (user : DirUser) (message : String) (timestamp : String) : DirBody
deriving DecidableEq, Repr

/-- An HTTP response of users.js: status code and body. -/
structure DirResponse where
  status : Nat
  body : DirBody
deriving DecidableEq, Repr

/-- The route `POST /` of users.js. -/
def createUser (env : Env) (users : List DirUser) (name email role : Option String) :
    List DirUser × DirResponse :=
  let role := role.getD "customer"
  if !truthy name || !truthy email then
    (users, ⟨400, .failure "Name and email are required"⟩)
  else
    match users.find? (fun u => strEq u.email email) with
    | some _ => (users, ⟨409, .failure "User with this email already exists"⟩)
    | none =>
        let user : DirUser :=
          { id := (mathMax (users.map (fun u => u.id))).addOne,
            name := str name, email := str email, role := role,
            createdAt := env.iso 0, lastLogin := none }
        (users ++ [user], ⟨201, .user user "User created successfully" (env.iso 1)⟩)

/-- The route `DELETE /:id` of users.js; `userId` is `parseInt(id)`, `none` for `NaN`. -/
def deleteUser (env : Env) (users : List DirUser) (userId : Option Int) :
    List DirUser × DirResponse :=
  match userId with
  | none => (users, ⟨400, .failure "Invalid user ID format"⟩)
  | some n =>
      match users.find? (fun u => u.id.strictEq (some n)) with
      | none => (users, ⟨404, .failure "User not found"⟩)
      | some deleted =>
          (users.eraseP (fun u => u.id.strictEq (some n)),
            ⟨200, .user deleted "User deleted successfully" (env.iso 0)⟩)

/-- A clock and hash used for concrete evaluations. -/
def sampleEnv : Env :=
  { now := 1000, iso := fun _ => "2024-01-01T00:16:40.000Z", bcryptHash := fun p => "$2a$10$" ++ p }

/-- A token for the first sample record that expired at second 10 and whose signature was
made with a key other than the secret. -/
def forgedToken : Token :=
  .signed { userId := some 1, email := "admin@cloudcommerce.com", role := "admin",
            iat := 0, exp := 10, iss := "cloudcommerce-user-service" } "forged"

/-- The token minted for the first sample record at the clock of `sampleEnv` with a
lifetime of zero seconds. -/
def zeroTtlToken : Token :=
  jwtSign { userId := .fin 1, email := "admin@cloudcommerce.com", role := "admin" }
    "cloudcommerce-dev-secret" 0 "cloudcommerce-user-service" 1000

/-- A correctly signed token that expired at second 10 and names the id of the second
sample record, with an e-mail and a role that are not those of that record. -/
def staleToken : Token :=
  .signed { userId := some 2, email := "old@cloudcommerce.com", role := "admin",
            iat := 0, exp := 10, iss := "cloudcommerce-user-service" }
    "cloudcommerce-dev-secret"

/-- The process environment with a token lifetime of zero seconds. -/
def zeroTtlEnv : ProcessEnv :=
  { JWT_SECRET := none, JWT_EXPIRES_IN := some 0 }

/-- A run in which a register and a login each mint a token and a refresh mints a third. -/
def sampleRun : List (Env × AuthRequest) :=
  [ (sampleEnv, annBody.request),
    (sampleEnv, .login (some "admin@cloudcommerce.com") (some "admin123")),
    (sampleEnv, .refresh (some staleToken)),
    (sampleEnv, .logout) ]

/-- The token that the login of `sampleRun` mints. -/
def adminToken : Token :=
  .signed { userId := some 1, email := "admin@cloudcommerce.com", role := "admin",
            iat := 1000, exp := 87400, iss := "cloudcommerce-user-service" }
    "cloudcommerce-dev-secret"

/-- The process environment with a token lifetime of ten million million seconds. -/
def hugeTtlEnv : ProcessEnv :=
  { JWT_SECRET := none, JWT_EXPIRES_IN := some 10000000000000 }

/-- The token minted for the first sample record at the clock of `sampleEnv` under
`hugeTtlEnv`. -/
def hugeTtlToken : Token :=
  jwtSign { userId := .fin 1, email := "admin@cloudcommerce.com", role := "admin" }
    "cloudcommerce-dev-secret" 10000000000000 "cloudcommerce-user-service" 1000

/-! ## The list route of users.js -/

/-- The string built-ins the list route calls: `toLowerCase` and `includes`. -/
structure JsString where
  toLowerCase : String → String
  includes : String → String → Bool

/-- The value of `parseInt(q) || d`, where `q` is the parsed query parameter, `none` for
`NaN`: zero and `NaN` give the default. -/
def orDefault (q : Option Int) (d : Int) : Int :=
  match q with
  | some n => if n = 0 then d else n
  | none => d

/-- The value of `xs.slice(start, stop)` for integers `start` and `stop`: a negative index
counts from the end, and both are clamped to the length. -/
def jsSlice {α : Type} (xs : List α) (start stop : Int) : List α :=
  let len : Int := xs.length
  let k := if start < 0 then max (len + start) 0 else min start len
  let final := if stop < 0 then max (len + stop) 0 else min stop len
  (xs.drop k.toNat).take (final - k).toNat

/-- The value of `Math.ceil(a / b)` for integers `a` and `b`, `b` not zero: the ceiling of
the exact quotient (the quotient of two integers below 2^53 is rounded by less than its
distance to the next integer). -/
def mathCeilDiv (a b : Int) : Int :=
  -(Int.fdiv (-a) b)

/-- The array `filteredUsers` of the list route. -/
def filterUsers (js : JsString) (users : List DirUser) (searchQ : Option String) :
    List DirUser :=
  let search := if truthy searchQ then str searchQ else ""
  if search != "" then
    users.filter (fun user =>
      js.includes (js.toLowerCase user.name) (js.toLowerCase search) ||
      js.includes (js.toLowerCase user.email) (js.toLowerCase search))
  else users

/-- The `pagination` object of the list response. -/
structure Pagination where
  currentPage : Int
  totalPages : Int
  totalUsers : Nat
  hasNext : Bool
  hasPrev : Bool
deriving DecidableEq, Repr

/-- The response of the list route: status, `data.users`, `data.pagination`, time stamp. -/
structure ListResponse where
  status : Nat
  users : List DirUser
  pagination : Pagination
  timestamp : String
deriving DecidableEq, Repr

/-- The route `GET /` of users.js; `pageQ` and `limitQ` are `parseInt` of the query
parameters, `none` for `NaN`. -/
def listUsers (js : JsString) (env : Env) (users : List DirUser) (pageQ limitQ : Option Int)
    (searchQ : Option String) : ListResponse :=
  let page := orDefault pageQ 1
  let limit := orDefault limitQ 10
  let filteredUsers := filterUsers js users searchQ
  let startIndex := (page - 1) * limit
  let endIndex := startIndex + limit
  let paginatedUsers := jsSlice filteredUsers startIndex endIndex
  { status := 200,
    users := paginatedUsers,
    pagination :=
      { currentPage := page,
        totalPages := mathCeilDiv filteredUsers.length limit,
        totalUsers := filteredUsers.length,
        hasNext := decide (endIndex < (filteredUsers.length : Int)),
        hasPrev := decide (startIndex > 0) },
    timestamp := env.iso 0 }

/-- Whether the characters `t` occur consecutively in `s`. -/
def occursIn (t : List Char) : List Char → Bool
  | [] => t.isEmpty
  | c :: s => (t.zip (c :: s)).all (fun x => x.1 == x.2) && t.length ≤ (c :: s).length
      || occursIn t s

/-- String built-ins for concrete evaluations (lower case of ASCII letters only). -/
def sampleJs : JsString :=
  { toLowerCase := fun s => String.mk (s.data.map Char.toLower),
    includes := fun s t => occursIn t.data s.data }

/-! ## Login -/

/-- C1 (evaluation at the failing input): the login with the e-mail of the first sample
record and a password that is not the one its hash was made from is answered 200 with a
token and records a login time, whereas the login with an e-mail of no record is answered
with the 401 response. -/
theorem login_wrong_password_succeeds :
    (login defaultEnv sampleEnv initialUsers (some "admin@cloudcommerce.com")
        (some "not-admin123")).2.status = 200
    ∧ (login defaultEnv sampleEnv initialUsers (some "admin@cloudcommerce.com")
        (some "not-admin123")).2.token? =
      some (.signed { userId := some 1, email := "admin@cloudcommerce.com", role := "admin",
                      iat := 1000, exp := 87400, iss := "cloudcommerce-user-service" }
              "cloudcommerce-dev-secret")
    ∧ ((login defaultEnv sampleEnv initialUsers (some "admin@cloudcommerce.com")
        (some "not-admin123")).1.map (fun u => u.lastLogin)) =
      [some "2024-01-01T00:16:40.000Z", none]
    ∧ login defaultEnv sampleEnv initialUsers (some "nobody@cloudcommerce.com")
        (some "not-admin123") = (initialUsers, fail 401 "Invalid credentials") := by
  refine ⟨?_, ?_, ?_, ?_⟩ <;> decide

/-! ## Refresh and validate: the two failures of verification -/

/-- The expired classification is raised only for a token whose signature is valid. -/
theorem jwtVerify_expired_sigValid (tok : Token) (secret : String) (now : Int)
    (error : JsError) (h : jwtVerify tok secret now = .error error)
    (hname : error.name = "TokenExpiredError") : sigValid tok secret = true := by
  cases tok with
  | malformed raw =>
      simp only [jwtVerify, Except.error.injEq] at h
      subst h
      simp at hname
  | signed p k =>
      by_cases hk : k = secret
      · simp [sigValid, hk]
      · simp only [jwtVerify, bne_iff_ne, ne_eq, hk, not_false_eq_true, ↓reduceIte,
          Except.error.injEq] at h
        subst h
        simp at hname

/-- C2: a non-empty token whose signature check fails is refused by refresh without the
decode fallback: `jwt.decode` is not called, no token is minted, the array is untouched and
the answer is the 401 response "Token refresh failed"; this holds whatever the expiry and
the user id of the payload are.  Whenever `jwt.decode` is called, verification has failed
with the expired classification and the signature of the token is valid. -/
theorem refresh_no_fallback_on_forgery (pe : ProcessEnv) (env : Env) (users : List User)
    (tok : Token) :
    (tokenTruthy (some tok) = true → sigValid tok (jwtSecret pe) = false →
      (recoverClaims tok (jwtSecret pe) env.now).2 = false
      ∧ (∃ message, refresh pe env users (some tok) =
          (users, ⟨401, .failure "Token refresh failed" (some message)⟩))
      ∧ (refresh pe env users (some tok)).2.token? = none)
    ∧ ((recoverClaims tok (jwtSecret pe) env.now).2 = true →
      sigValid tok (jwtSecret pe) = true
      ∧ ∃ error, jwtVerify tok (jwtSecret pe) env.now = .error error
          ∧ error.name = "TokenExpiredError") := by
  constructor
  · intro hne hsig
    cases tok with
    | malformed raw =>
        simp [refresh, recoverClaims, jwtVerify, hne, Response.token?]
    | signed p k =>
        have hk : k ≠ jwtSecret pe := by simpa [sigValid] using hsig
        simp [refresh, recoverClaims, jwtVerify, hk, tokenTruthy, Response.token?]
  · intro hdec
    have key : ∃ error, jwtVerify tok (jwtSecret pe) env.now = .error error
        ∧ error.name = "TokenExpiredError" := by
      unfold recoverClaims at hdec
      split at hdec
      · simp at hdec
      · rename_i error herr
        by_cases hn : error.name = "TokenExpiredError"
        · exact ⟨error, herr, hn⟩
        · simp [hn] at hdec
    obtain ⟨error, herr, hn⟩ := key
    exact ⟨jwtVerify_expired_sigValid tok _ _ error herr hn, error, herr, hn⟩

/-- C2 at a concrete forged token that is also expired and names the id of a record. -/
theorem refresh_no_fallback_on_forgery_witness :
    (recoverClaims forgedToken (jwtSecret defaultEnv) sampleEnv.now).2 = false
    ∧ (∃ message, refresh defaultEnv sampleEnv initialUsers (some forgedToken) =
          (initialUsers, ⟨401, .failure "Token refresh failed" (some message)⟩))
    ∧ (refresh defaultEnv sampleEnv initialUsers (some forgedToken)).2.token? = none :=
  (refresh_no_fallback_on_forgery defaultEnv sampleEnv initialUsers forgedToken).1
    (by decide) (by decide)

/-- Validate on a string that is not a JWT. -/
theorem validate_malformed (pe : ProcessEnv) (env : Env) (users : List User) (raw : String)
    (hne : raw ≠ "") :
    validate pe env users (some (.malformed raw)) = (users, fail 401 "Invalid token") := by
  simp [validate, validateCatch, tokenTruthy, jwtVerify, hne]

/-- Validate on a JWT signed with another key. -/
theorem validate_badSignature (pe : ProcessEnv) (env : Env) (users : List User) (p : Payload)
    (k : String) (hk : k ≠ jwtSecret pe) :
    validate pe env users (some (.signed p k)) = (users, fail 401 "Invalid token") := by
  simp [validate, validateCatch, tokenTruthy, jwtVerify, hk]

/-- Validate on a correctly signed JWT whose expiry has been reached. -/
theorem validate_expired (pe : ProcessEnv) (env : Env) (users : List User) (p : Payload)
    (hexp : p.exp ≤ env.now) :
    validate pe env users (some (.signed p (jwtSecret pe))) =
      (users, fail 401 "Token expired") := by
  simp [validate, validateCatch, tokenTruthy, jwtVerify, hexp]

/-- Validate on a correctly signed, live JWT: the answer depends on the lookup by id and,
when a record is found, on whether the two times of the token are valid dates. -/
theorem validate_live (pe : ProcessEnv) (env : Env) (users : List User) (p : Payload)
    (hlive : env.now < p.exp) :
    validate pe env users (some (.signed p (jwtSecret pe))) =
      match users.find? (fun u => u.id.strictEq p.userId) with
      | none => (users, fail 401 "Invalid token - user not found")
      | some user =>
          if validDate p.iat && validDate p.exp then
            (users, ⟨200, .validation (plainView user) p.iat p.exp (env.iso 0)⟩)
          else
            (users, ⟨500, .failure "Token validation failed" (some "Invalid time value")⟩) := by
  have h : ¬ p.exp ≤ env.now := not_le.mpr hlive
  simp only [validate, tokenTruthy, jwtVerify, Option.getD_some, bne_self_eq_false,
    Bool.not_true, Bool.false_eq_true, if_false, ge_iff_le, h]
  cases users.find? (fun u => u.id.strictEq p.userId) with
  | none => rfl
  | some user =>
      cases h1 : validDate p.iat <;> cases h2 : validDate p.exp <;>
        simp [toISOString, validateCatch, h1, h2]

/-- A lookup that finds nothing: no record satisfies the test. -/
theorem find?_none_forall (users : List User) (q : User → Bool)
    (h : users.find? q = none) : ∀ u ∈ users, q u = false := by
  intro u hu
  have := List.find?_eq_none.mp h u hu
  simpa using this

/-- C4 (as amended): validate classifies a non-empty token.  The array is never changed.
The answer is 200 with the validation body (valid: true) exactly when the signature is
valid, the clock is before the expiry, the user id of the payload is the id of some record
and the issue and expiry times of the token are valid JavaScript dates; when all but the
last hold it is the 500 "Token validation failed".  It is the 401 "Invalid token" whenever
the signature check fails, whatever the expiry; it is the 401 "Token expired" exactly when
the signature is valid and the clock has reached the expiry (so also for a token minted
with a lifetime of zero); and it is the 401 "Invalid token - user not found" when the
token verifies and no record has its user id. -/
theorem validate_classifies (pe : ProcessEnv) (env : Env) (users : List User) (tok : Token)
    (hne : tokenTruthy (some tok) = true) :
    (validate pe env users (some tok)).1 = users
    ∧ ((∃ view issuedAt expiresAt timestamp, (validate pe env users (some tok)).2 =
          ⟨200, .validation view issuedAt expiresAt timestamp⟩) ↔
        ∃ p, jwtDecode tok = some p ∧ sigValid tok (jwtSecret pe) = true ∧ env.now < p.exp
          ∧ (∃ u ∈ users, u.id.strictEq p.userId = true)
          ∧ validDate p.iat = true ∧ validDate p.exp = true)
    ∧ ((validate pe env users (some tok)).2.status = 200 ↔
        ∃ view issuedAt expiresAt timestamp, (validate pe env users (some tok)).2 =
          ⟨200, .validation view issuedAt expiresAt timestamp⟩)
    ∧ (∀ p, jwtDecode tok = some p → sigValid tok (jwtSecret pe) = true → env.now < p.exp →
        (∃ u ∈ users, u.id.strictEq p.userId = true) →
        (validDate p.iat = false ∨ validDate p.exp = false) →
        (validate pe env users (some tok)).2 =
          ⟨500, .failure "Token validation failed" (some "Invalid time value")⟩)
    ∧ (sigValid tok (jwtSecret pe) = false →
        (validate pe env users (some tok)).2 = fail 401 "Invalid token")
    ∧ ((validate pe env users (some tok)).2 = fail 401 "Token expired" ↔
        sigValid tok (jwtSecret pe) = true ∧ ∃ p, jwtDecode tok = some p ∧ p.exp ≤ env.now)
    ∧ (∀ p, jwtVerify tok (jwtSecret pe) env.now = .ok p →
        (∀ u ∈ users, u.id.strictEq p.userId = false) →
        (validate pe env users (some tok)).2 = fail 401 "Invalid token - user not found") := by
  cases tok with
  | malformed raw =>
      have hraw : raw ≠ "" := by simpa [tokenTruthy] using hne
      rw [validate_malformed pe env users raw hraw]
      simp [jwtVerify, jwtDecode, sigValid, fail]
  | signed p k =>
      by_cases hk : k = jwtSecret pe
      · subst hk
        by_cases hexp : p.exp ≤ env.now
        · have hnot : ¬ env.now < p.exp := not_lt.mpr hexp
          rw [validate_expired pe env users p hexp]
          simp [jwtVerify, jwtDecode, sigValid, fail, hexp, hnot]
        · have hlt : env.now < p.exp := not_le.mp hexp
          rw [validate_live pe env users p hlt]
          cases hfind : users.find? (fun u => u.id.strictEq p.userId) with
          | none =>
              have hall := find?_none_forall users _ hfind
              have hno : ¬ ∃ u ∈ users, u.id.strictEq p.userId = true := by
                rintro ⟨u, hu, h⟩
                rw [hall u hu] at h
                exact Bool.false_ne_true h
              simp [jwtVerify, jwtDecode, sigValid, fail, hexp, hlt, hno]
              intro u hu h
              rw [hall u hu] at h
              exact absurd h Bool.false_ne_true
          | some user =>
              have hmem : user ∈ users := List.mem_of_find?_eq_some hfind
              have hid : user.id.strictEq p.userId = true := by
                simpa using List.find?_some hfind
              have hyes : ∃ u ∈ users, u.id.strictEq p.userId = true := ⟨user, hmem, hid⟩
              cases h1 : validDate p.iat <;> cases h2 : validDate p.exp <;>
                simp [jwtVerify, jwtDecode, sigValid, fail, hexp, hlt, hyes, h1, h2]
      · rw [validate_badSignature pe env users p k hk]
        simp [jwtVerify, jwtDecode, sigValid, fail, hk]

/-- C4 at a token minted with a lifetime of zero: it is answered "Token expired". -/
theorem validate_classifies_witness :
    (validate defaultEnv sampleEnv initialUsers (some zeroTtlToken)).2
      = fail 401 "Token expired" :=
  ((validate_classifies defaultEnv sampleEnv initialUsers zeroTtlToken
    (by decide)).2.2.2.2.2.1).mpr ⟨by decide, _, rfl, by decide⟩

/-- C4 (counterexample): under a configured lifetime of ten million million seconds the
login of the first sample record mints a token that is correctly signed, not expired and
names the id of a record, and validate of that token is answered 500, not 200: its expiry
is no valid JavaScript date. -/
theorem validate_classifies_fails :
    (login hugeTtlEnv sampleEnv initialUsers (some "admin@cloudcommerce.com")
        (some "admin123")).2.token? = some hugeTtlToken
    ∧ sigValid hugeTtlToken (jwtSecret hugeTtlEnv) = true
    ∧ jwtVerify hugeTtlToken (jwtSecret hugeTtlEnv) sampleEnv.now =
        .ok { userId := some 1, email := "admin@cloudcommerce.com", role := "admin",
              iat := 1000, exp := 10000000001000, iss := "cloudcommerce-user-service" }
    ∧ (∃ u ∈ initialUsers, u.id.strictEq (some 1) = true)
    ∧ (validate hugeTtlEnv sampleEnv initialUsers (some hugeTtlToken)).2 =
        ⟨500, .failure "Token validation failed" (some "Invalid time value")⟩ := by
  refine ⟨?_, ?_, ?_, ?_, ?_⟩ <;> first | decide | rfl

/-! ## Refresh -/

/-- Refresh on a correctly signed JWT, live or expired, whose user id is found. -/
theorem refresh_signed (pe : ProcessEnv) (env : Env) (users : List User) (p : Payload)
    (user : User) (hfind : users.find? (fun u => u.id.strictEq p.userId) = some user) :
    refresh pe env users (some (.signed p (jwtSecret pe))) =
      (users, ⟨200, .session
        (jwtSign (claimsOf user) (jwtSecret pe) (expiresIn pe) "cloudcommerce-user-service"
          env.now)
        (plainView user) "Token refreshed successfully" (env.iso 0)⟩) := by
  by_cases hexp : p.exp ≤ env.now
  · simp [refresh, tokenTruthy, recoverClaims, jwtVerify, jwtDecode, hexp, hfind]
  · simp [refresh, tokenTruthy, recoverClaims, jwtVerify, hexp, hfind]

/-- A record whose id is strictly equal to a decoded value: its JSON value is that value. -/
theorem toJSON_of_strictEq (id : JsNum) (v : Option Int) (h : id.strictEq v = true) :
    id.toJSON = v := by
  cases id with
  | negInf => simp [JsNum.strictEq] at h
  | fin a =>
      cases v with
      | none => simp [JsNum.strictEq] at h
      | some b =>
          have : a = b := by simpa [JsNum.strictEq] using h
          simp [JsNum.toJSON, this]

/-- C3 (as amended): refresh of a correctly signed, expired token whose user id is found in
the array is answered 200 with a new token that carries the same user id and the e-mail and
role of the first record with that id, hence the claims of the old token whenever its
e-mail and role are those of that record; the new expiry is the clock plus the configured
lifetime, strictly later than the old expiry whenever that lifetime is positive. -/
theorem refresh_continuity (pe : ProcessEnv) (env : Env) (users : List User) (p : Payload)
    (user : User) (hexp : p.exp ≤ env.now)
    (hfind : users.find? (fun u => u.id.strictEq p.userId) = some user) :
    refresh pe env users (some (.signed p (jwtSecret pe))) =
      (users, ⟨200, .session
        (.signed { userId := p.userId, email := user.email, role := user.role,
                   iat := env.now, exp := env.now + expiresIn pe,
                   iss := "cloudcommerce-user-service" } (jwtSecret pe))
        (plainView user) "Token refreshed successfully" (env.iso 0)⟩)
    ∧ (p.email = user.email → p.role = user.role →
        (p.userId, user.email, user.role) = (p.userId, p.email, p.role))
    ∧ (0 < expiresIn pe → p.exp < env.now + expiresIn pe) := by
  have hid : user.id.strictEq p.userId = true := by simpa using List.find?_some hfind
  refine ⟨?_, ?_, ?_⟩
  · rw [refresh_signed pe env users p user hfind]
    simp [jwtSign, claimsOf, toJSON_of_strictEq _ _ hid]
  · intro h1 h2
    rw [h1, h2]
  · intro hpos
    omega

/-- C3 at the first sample record and a token for it that expired at second 10. -/
theorem refresh_continuity_witness :
    refresh defaultEnv sampleEnv initialUsers (some (.signed
        { userId := some 1, email := "admin@cloudcommerce.com", role := "admin", iat := 0,
          exp := 10, iss := "cloudcommerce-user-service" } (jwtSecret defaultEnv))) =
      (initialUsers, ⟨200, .session
        (.signed { userId := some 1, email := "admin@cloudcommerce.com", role := "admin",
                   iat := 1000, exp := 1000 + expiresIn defaultEnv,
                   iss := "cloudcommerce-user-service" } (jwtSecret defaultEnv))
        (plainView (initialUsers.get ⟨0, by decide⟩)) "Token refreshed successfully"
        (sampleEnv.iso 0)⟩)
    ∧ (10 : Int) < 1000 + expiresIn defaultEnv :=
  have h := refresh_continuity defaultEnv sampleEnv initialUsers
    { userId := some 1, email := "admin@cloudcommerce.com", role := "admin", iat := 0,
      exp := 10, iss := "cloudcommerce-user-service" }
    (initialUsers.get ⟨0, by decide⟩) (by decide) (by decide)
  ⟨h.1, h.2.2 (by decide)⟩

/-- C3 (counterexample): a correctly signed, expired token whose user id is found can be
refreshed into a token with another e-mail and role, namely those of the record; and with
a configured lifetime of zero the new expiry is not later than the old one. -/
theorem refresh_continuity_fails :
    (sigValid staleToken (jwtSecret defaultEnv) = true
      ∧ jwtVerify staleToken (jwtSecret defaultEnv) sampleEnv.now =
          .error ⟨"TokenExpiredError", "jwt expired"⟩
      ∧ (refresh defaultEnv sampleEnv initialUsers (some staleToken)).2.status = 200
      ∧ (refresh defaultEnv sampleEnv initialUsers (some staleToken)).2.token? =
          some (.signed { userId := some 2, email := "user@cloudcommerce.com",
                          role := "customer", iat := 1000, exp := 87400,
                          iss := "cloudcommerce-user-service" } "cloudcommerce-dev-secret")
      ∧ jwtDecode staleToken =
          some { userId := some 2, email := "old@cloudcommerce.com", role := "admin",
                 iat := 0, exp := 10, iss := "cloudcommerce-user-service" })
    ∧ (jwtVerify zeroTtlToken (jwtSecret zeroTtlEnv) sampleEnv.now =
          .error ⟨"TokenExpiredError", "jwt expired"⟩
      ∧ (refresh zeroTtlEnv sampleEnv initialUsers (some zeroTtlToken)).2.status = 200
      ∧ (refresh zeroTtlEnv sampleEnv initialUsers (some zeroTtlToken)).2.token? =
          some zeroTtlToken) := by
  refine ⟨⟨?_, ?_, ?_, ?_, ?_⟩, ?_, ?_, ?_⟩ <;> first | decide | rfl

/-! ## Math.max over the ids -/

/-- The fold of `Math.max` is `-Infinity` only if every argument is. -/
theorem foldl_max_negInf (xs : List JsNum) (acc : JsNum) :
    xs.foldl JsNum.max acc = .negInf ↔ acc = .negInf ∧ ∀ x ∈ xs, x = .negInf := by
  induction xs generalizing acc with
  | nil => simp
  | cons x xs ih =>
      rw [List.foldl_cons, ih]
      cases acc <;> cases x <;> simp [JsNum.max]

/-- The fold of `Math.max`, when an integer, bounds every integer argument and is one of
the arguments. -/
theorem foldl_max_fin (xs : List JsNum) (acc : JsNum) (m : Int)
    (h : xs.foldl JsNum.max acc = .fin m) :
    (∀ x ∈ acc :: xs, ∀ n, x = .fin n → n ≤ m) ∧ .fin m ∈ acc :: xs := by
  induction xs generalizing acc with
  | nil =>
      simp only [List.foldl_nil] at h
      subst h
      simp
  | cons x xs ih =>
      rw [List.foldl_cons] at h
      obtain ⟨hle, hmem⟩ := ih _ h
      have hacc : ∀ n, acc.max x = .fin n → (∀ k, acc = .fin k → k ≤ n) ∧
          (∀ k, x = .fin k → k ≤ n) ∧ (acc = .fin n ∨ x = .fin n) := by
        intro n hn
        cases acc <;> cases x <;> simp only [JsNum.max] at hn
        · exact absurd hn (by simp)
        · cases hn; simp
        · cases hn; simp
        · rename_i a b
          split at hn <;> cases hn <;> simp <;> omega
      constructor
      · intro y hy n hyn
        simp only [List.mem_cons] at hy
        rcases hy with hy | hy | hy
        · subst hy
          subst hyn
          cases hmx : (JsNum.fin n).max x with
          | negInf => cases x <;> simp [JsNum.max] at hmx
          | fin j =>
              have := (hacc j hmx).1 n rfl
              have := hle _ (List.mem_cons_self _ _) j hmx
              omega
        · subst hy
          subst hyn
          cases hmx : acc.max (JsNum.fin n) with
          | negInf => cases acc <;> simp [JsNum.max] at hmx
          | fin j =>
              have := (hacc j hmx).2.1 n rfl
              have := hle _ (List.mem_cons_self _ _) j hmx
              omega
        · exact hle y (List.mem_cons_of_mem _ hy) n hyn
      · simp only [List.mem_cons] at hmem ⊢
        rcases hmem with hmem | hmem
        · rcases (hacc m hmem.symm).2.2 with h1 | h1
          · exact Or.inl h1.symm
          · exact Or.inr (Or.inl h1.symm)
        · exact Or.inr (Or.inr hmem)

/-- For a non-empty array whose ids are integers, `Math.max` of the ids is an integer that
is the id of a record and bounds every id. -/
theorem mathMax_ids (users : List User) (hne : users ≠ [])
    (hint : ∀ u ∈ users, u.id ≠ .negInf) :
    ∃ m, mathMax (users.map (fun u => u.id)) = .fin m
      ∧ (∃ u ∈ users, u.id = .fin m)
      ∧ ∀ u ∈ users, ∃ n, u.id = .fin n ∧ n ≤ m := by
  cases hmax : mathMax (users.map (fun u => u.id)) with
  | negInf =>
      exfalso
      have h := (foldl_max_negInf _ _).mp hmax
      cases users with
      | nil => exact hne rfl
      | cons u us =>
          exact hint u (List.mem_cons_self _ _) (h.2 u.id (by simp))
  | fin m =>
      obtain ⟨hle, hmem⟩ := foldl_max_fin _ _ m hmax
      refine ⟨m, rfl, ?_, ?_⟩
      · simp only [List.mem_cons, List.mem_map] at hmem
        rcases hmem with hmem | ⟨u, hu, hid⟩
        · cases hmem
        · exact ⟨u, hu, hid⟩
      · intro u hu
        cases hid : u.id with
        | negInf => exact absurd hid (hint u hu)
        | fin n =>
            exact ⟨n, rfl, hle (.fin n) (List.mem_cons_of_mem _
              (List.mem_map.mpr ⟨u, hu, hid⟩)) n rfl⟩

/-! ## Register -/

/-- A field is falsy exactly when it is absent or the empty string. -/
theorem truthy_eq_false_iff (v : Option String) : truthy v = false ↔ absentOrEmpty v := by
  cases v with
  | none => simp [truthy, absentOrEmpty]
  | some s => simp [truthy, absentOrEmpty]

/-- A truthy field carries a non-empty string. -/
theorem truthy_eq_true_iff (v : Option String) :
    truthy v = true ↔ v = some (str v) ∧ str v ≠ "" := by
  cases v with
  | none => simp [truthy, str]
  | some s => simp [truthy, str]

/-- Register with a falsy name, e-mail or password. -/
theorem register_missing (pe : ProcessEnv) (env : Env) (users : List User)
    (name email password role : Option String)
    (h : truthy name = false ∨ truthy email = false ∨ truthy password = false) :
    register pe env users name email password role =
      (users, fail 400 "Name, email, and password are required") := by
  rcases h with h | h | h <;> simp [register, h]

/-- Register with all three fields truthy and an e-mail that a record has. -/
theorem register_duplicate (pe : ProcessEnv) (env : Env) (users : List User)
    (name email password role : Option String) (hn : truthy name = true)
    (he : truthy email = true) (hp : truthy password = true) (u : User)
    (hfind : users.find? (fun u => strEq u.email email) = some u) :
    register pe env users name email password role =
      (users, fail 409 "User with this email already exists") := by
  simp [register, hn, he, hp, hfind]

/-- Register with all three fields truthy and an e-mail that no record has. -/
theorem register_created (pe : ProcessEnv) (env : Env) (users : List User)
    (name email password role : Option String) (hn : truthy name = true)
    (he : truthy email = true) (hp : truthy password = true)
    (hfind : users.find? (fun u => strEq u.email email) = none) :
    register pe env users name email password role =
      (users ++ [newUser env users name email password (role.getD "customer")],
        ⟨201, .session
          (jwtSign (claimsOf (newUser env users name email password (role.getD "customer")))
            (jwtSecret pe) (expiresIn pe) "cloudcommerce-user-service" env.now)
          { id := (newUser env users name email password (role.getD "customer")).id,
            email := str email, name := str name, role := role.getD "customer",
            lastLogin := none, createdAt := some (env.iso 0) }
          "User registered successfully" (env.iso 1)⟩) := by
  simp [register, hn, he, hp, hfind, newUser]

/-- The lookup by e-mail finds a record exactly when some record has that e-mail. -/
theorem find?_email_isSome (users : List User) (email : Option String) :
    (∃ u, users.find? (fun u => strEq u.email email) = some u) ↔
      ∃ u ∈ users, some u.email = email := by
  constructor
  · rintro ⟨u, hu⟩
    refine ⟨u, List.mem_of_find?_eq_some hu, ?_⟩
    have h := List.find?_some hu
    simp only [strEq, beq_iff_eq] at h
    exact h.symm
  · rintro ⟨u, hu, he⟩
    cases hfind : users.find? (fun u => strEq u.email email) with
    | some v => exact ⟨v, rfl⟩
    | none =>
        have := find?_none_forall users _ hfind u hu
        subst he
        simp [strEq] at this

/-- The id that register assigns in a non-empty array of integer ids: the largest id
plus one. -/
theorem newUser_id (env : Env) (users : List User) (name email password : Option String)
    (role : String) (hne : users ≠ []) (hint : ∀ u ∈ users, u.id ≠ .negInf) :
    ∃ m, mathMax (users.map (fun u => u.id)) = .fin m
      ∧ (newUser env users name email password role).id = .fin (m + 1)
      ∧ (∃ u ∈ users, u.id = .fin m)
      ∧ ∀ u ∈ users, ∃ n, u.id = .fin n ∧ n ≤ m := by
  obtain ⟨m, hm, hmem, hle⟩ := mathMax_ids users hne hint
  exact ⟨m, hm, by simp [newUser, hm, JsNum.addOne], hmem, hle⟩

/-- C6 (evaluation at the failing input): deleting the three sample records of users.js
leaves the empty array, and the record then created gets the id `-Infinity`, not 1; the
same expression in register of auth.js gives `-Infinity` on the empty array as well. -/
theorem create_on_empty_array :
    (deleteUser sampleEnv (deleteUser sampleEnv (deleteUser sampleEnv sampleUsers
        (some 1)).1 (some 2)).1 (some 3)).1 = []
    ∧ (createUser sampleEnv [] (some "Ann") (some "a@x.com") none).2.status = 201
    ∧ (createUser sampleEnv [] (some "Ann") (some "a@x.com") none).1.map (fun u => u.id)
        = [.negInf]
    ∧ (newUser sampleEnv [] (some "Ann") (some "a@x.com") (some "secret1") "customer").id
        = .negInf := by
  refine ⟨?_, ?_, ?_, ?_⟩ <;> decide

/-! ## Login: evaluation and frame -/

/-- Login with a falsy e-mail or password. -/
theorem login_missing (pe : ProcessEnv) (env : Env) (users : List User)
    (email password : Option String)
    (h : truthy email = false ∨ truthy password = false) :
    login pe env users email password =
      (users, fail 400 "Email and password are required") := by
  rcases h with h | h <;> simp [login, h]

/-- Login with both fields truthy and an e-mail that no record has. -/
theorem login_unknown (pe : ProcessEnv) (env : Env) (users : List User)
    (email password : Option String) (he : truthy email = true)
    (hp : truthy password = true)
    (hfind : users.find? (fun u => strEq u.email email) = none) :
    login pe env users email password = (users, fail 401 "Invalid credentials") := by
  simp [login, he, hp, hfind]

/-- Login with both fields truthy and an e-mail that a record has: whatever the password,
the answer is 200. -/
theorem login_found (pe : ProcessEnv) (env : Env) (users : List User)
    (email password : Option String) (he : truthy email = true)
    (hp : truthy password = true) (user : User)
    (hfind : users.find? (fun u => strEq u.email email) = some user) :
    login pe env users email password =
      (updateFirst (fun u => strEq u.email email)
          (fun u => { u with lastLogin := some (env.iso 0) }) users,
        ⟨200, .session
          (jwtSign (claimsOf user) (jwtSecret pe) (expiresIn pe) "cloudcommerce-user-service"
            env.now)
          { id := user.id, email := user.email, name := user.name, role := user.role,
            lastLogin := some (env.iso 0), createdAt := none }
          "Login successful" (env.iso 1)⟩) := by
  simp [login, he, hp, hfind]

/-- The update of the first match, seen through the split of the array at that match. -/
theorem updateFirst_append (q : User → Bool) (f : User → User) (front back : List User)
    (user : User) (hfront : ∀ a ∈ front, q a = false) (huser : q user = true) :
    updateFirst q f (front ++ user :: back) = front ++ f user :: back := by
  induction front with
  | nil => simp [updateFirst, huser]
  | cons a front ih =>
      have ha : q a = false := hfront a (List.mem_cons_self _ _)
      have := ih (fun b hb => hfront b (List.mem_cons_of_mem _ hb))
      simp [updateFirst, ha, this]

/-- The update of the first match when nothing matches. -/
theorem updateFirst_none (q : User → Bool) (f : User → User) (users : List User)
    (h : ∀ a ∈ users, q a = false) : updateFirst q f users = users := by
  induction users with
  | nil => rfl
  | cons a users ih =>
      have ha : q a = false := h a (List.mem_cons_self _ _)
      simp [updateFirst, ha, ih (fun b hb => h b (List.mem_cons_of_mem _ hb))]

/-- An update that keeps what `g` reads keeps the image of the array under `g`. -/
theorem updateFirst_map {β : Type} (q : User → Bool) (f : User → User) (g : User → β)
    (hg : ∀ u, g (f u) = g u) (users : List User) :
    (updateFirst q f users).map g = users.map g := by
  induction users with
  | nil => rfl
  | cons a users ih =>
      by_cases ha : q a = true
      · simp [updateFirst, ha, hg]
      · simp [updateFirst, ha, ih]

/-- Login keeps whatever is read from records without looking at `lastLogin`. -/
theorem login_map {β : Type} (pe : ProcessEnv) (env : Env) (users : List User)
    (email password : Option String) (g : User → β)
    (hg : ∀ (u : User) (t : Option String), g { u with lastLogin := t } = g u) :
    (login pe env users email password).1.map g = users.map g := by
  by_cases he : truthy email = true
  · by_cases hp : truthy password = true
    · cases hfind : users.find? (fun u => strEq u.email email) with
      | none => rw [login_unknown pe env users email password he hp hfind]
      | some user =>
          rw [login_found pe env users email password he hp user hfind]
          exact updateFirst_map _ _ g (fun u => hg u _) users
    · rw [login_missing pe env users email password (Or.inr (by simpa using hp))]
  · rw [login_missing pe env users email password (Or.inl (by simpa using he))]

/-- Validate never changes the array. -/
theorem validate_fst (pe : ProcessEnv) (env : Env) (users : List User) (token : Option Token) :
    (validate pe env users token).1 = users := by
  have hcatch : ∀ error, (validateCatch users error).1 = users := by
    intro error
    unfold validateCatch
    split
    · rfl
    · split <;> rfl
  unfold validate
  split
  · rfl
  · split
    · split
      · rfl
      · split
        · exact hcatch _
        · split
          · exact hcatch _
          · rfl
    · exact hcatch _

/-- Refresh never changes the array. -/
theorem refresh_fst (pe : ProcessEnv) (env : Env) (users : List User) (token : Option Token) :
    (refresh pe env users token).1 = users := by
  unfold refresh
  split
  · rfl
  · split
    · rfl
    · split <;> rfl

/-- Login with both fields truthy, in an array split at the first record with the requested
e-mail. -/
theorem login_split (pe : ProcessEnv) (env : Env) (front back : List User) (user : User)
    (email password : Option String) (he : truthy email = true) (hp : truthy password = true)
    (hfront : ∀ a ∈ front, some a.email ≠ email) (huser : some user.email = email) :
    login pe env (front ++ user :: back) email password =
      (front ++ { user with lastLogin := some (env.iso 0) } :: back,
        ⟨200, .session
          (jwtSign (claimsOf user) (jwtSecret pe) (expiresIn pe) "cloudcommerce-user-service"
            env.now)
          { id := user.id, email := user.email, name := user.name, role := user.role,
            lastLogin := some (env.iso 0), createdAt := none }
          "Login successful" (env.iso 1)⟩) := by
  have hq : ∀ a ∈ front, (fun u : User => strEq u.email email) a = false := by
    intro a ha
    have := hfront a ha
    simp only [strEq, beq_eq_false_iff_ne, ne_eq]
    exact fun h => this h.symm
  have hu : (fun u : User => strEq u.email email) user = true := by
    simp [strEq, ← huser]
  have hfind : (front ++ user :: back).find? (fun u => strEq u.email email) = some user := by
    rw [List.find?_eq_some]
    exact ⟨hu, front, back, rfl, fun a ha => by simpa using hq a ha⟩
  rw [login_found pe env _ email password he hp user hfind,
    updateFirst_append _ _ front back user hq hu]

/-! ## Frame of the array under the auth routes -/

/-- The three outcomes of login, with the array each leaves. -/
theorem login_cases (pe : ProcessEnv) (env : Env) (users : List User)
    (email password : Option String) :
    login pe env users email password = (users, fail 400 "Email and password are required")
    ∨ login pe env users email password = (users, fail 401 "Invalid credentials")
    ∨ ∃ front user back, users = front ++ user :: back
        ∧ (∀ a ∈ front, some a.email ≠ email) ∧ some user.email = email
        ∧ (login pe env users email password).1 =
            front ++ { user with lastLogin := some (env.iso 0) } :: back
        ∧ (login pe env users email password).2.status = 200 := by
  by_cases he : truthy email = true
  · by_cases hp : truthy password = true
    · cases hfind : users.find? (fun u => strEq u.email email) with
      | none => exact Or.inr (Or.inl (login_unknown pe env users email password he hp hfind))
      | some user =>
          obtain ⟨hu, front, back, hsplit, hfront⟩ := List.find?_eq_some.mp hfind
          have huser : some user.email = email := by
            simp only [strEq, beq_iff_eq] at hu
            exact hu.symm
          have hfront2 : ∀ a ∈ front, some a.email ≠ email := by
            intro a ha h
            have := hfront a ha
            simp [strEq, ← h] at this
          refine Or.inr (Or.inr ⟨front, user, back, hsplit, hfront2, huser, ?_, ?_⟩)
          · rw [hsplit, login_split pe env front back user email password he hp hfront2 huser]
          · rw [login_found pe env users email password he hp user hfind]
    · exact Or.inl (login_missing pe env users email password (Or.inr (by simpa using hp)))
  · exact Or.inl (login_missing pe env users email password (Or.inl (by simpa using he)))

/-- The three outcomes of register, with the array each leaves. -/
theorem register_cases (pe : ProcessEnv) (env : Env) (users : List User)
    (name email password role : Option String) :
    register pe env users name email password role =
        (users, fail 400 "Name, email, and password are required")
    ∨ register pe env users name email password role =
        (users, fail 409 "User with this email already exists")
    ∨ (truthy name = true ∧ truthy email = true ∧ truthy password = true
        ∧ users.find? (fun u => strEq u.email email) = none
        ∧ (register pe env users name email password role).1 =
            users ++ [newUser env users name email password (role.getD "customer")]
        ∧ (register pe env users name email password role).2.status = 201) := by
  by_cases hn : truthy name = true
  · by_cases he : truthy email = true
    · by_cases hp : truthy password = true
      · cases hfind : users.find? (fun u => strEq u.email email) with
        | none =>
            refine Or.inr (Or.inr ⟨hn, he, hp, rfl, ?_, ?_⟩) <;>
              rw [register_created pe env users name email password role hn he hp hfind]
        | some u =>
            exact Or.inr (Or.inl
              (register_duplicate pe env users name email password role hn he hp u hfind))
      · exact Or.inl (register_missing pe env users name email password role
          (Or.inr (Or.inr (by simpa using hp))))
    · exact Or.inl (register_missing pe env users name email password role
        (Or.inr (Or.inl (by simpa using he))))
  · exact Or.inl (register_missing pe env users name email password role
      (Or.inl (by simpa using hn)))

/-- C10: the frame of the array under the auth routes.  No request removes a record or
changes the id, e-mail, credential hash, name or role of an existing one.  A login answered
200 changes only the `lastLogin` of the first record with the requested e-mail; a register
answered 201 only appends one record; validate, refresh, logout and every login or register
answered otherwise leave the array as it is.  Logout is an acknowledgment only, so validate
of any token gives the same result after it as before it. -/
theorem auth_frame (pe : ProcessEnv) (env : Env) (users : List User) :
    (∀ req, ∃ extra, (handle pe env users req).1.map User.core =
        users.map User.core ++ extra)
    ∧ (∀ email password, (login pe env users email password).2.status = 200 →
        ∃ front user back, users = front ++ user :: back
          ∧ (∀ a ∈ front, some a.email ≠ email) ∧ some user.email = email
          ∧ (login pe env users email password).1 =
              front ++ { user with lastLogin := some (env.iso 0) } :: back)
    ∧ (∀ email password, (login pe env users email password).2.status ≠ 200 →
        (login pe env users email password).1 = users)
    ∧ (∀ name email password role,
        (register pe env users name email password role).2.status = 201 →
        ∃ user, (register pe env users name email password role).1 = users ++ [user])
    ∧ (∀ name email password role,
        (register pe env users name email password role).2.status ≠ 201 →
        (register pe env users name email password role).1 = users)
    ∧ (∀ token, (validate pe env users token).1 = users
        ∧ (refresh pe env users token).1 = users)
    ∧ logout env users = (users, ⟨200, .ack "Logged out successfully" (env.iso 0)⟩)
    ∧ (∀ env2 token, validate pe env2 (logout env users).1 token =
        validate pe env2 users token) := by
  refine ⟨?_, ?_, ?_, ?_, ?_, ?_, rfl, fun _ _ => rfl⟩
  · intro req
    cases req with
    | login email password =>
        exact ⟨[], by
          simp only [handle, List.append_nil]
          exact login_map pe env users email password User.core (fun _ _ => rfl)⟩
    | register name email password role =>
        rcases register_cases pe env users name email password role with h | h | h
        · exact ⟨[], by simp [handle, h]⟩
        · exact ⟨[], by simp [handle, h]⟩
        · exact ⟨[(newUser env users name email password (role.getD "customer")).core], by
            simp [handle, h.2.2.2.2.1]⟩
    | validate token => exact ⟨[], by simp [handle, validate_fst]⟩
    | refresh token => exact ⟨[], by simp [handle, refresh_fst]⟩
    | logout => exact ⟨[], by simp [handle, logout]⟩
  · intro email password hs
    rcases login_cases pe env users email password with h | h | ⟨front, user, back, h⟩
    · rw [h] at hs
      simp [fail] at hs
    · rw [h] at hs
      simp [fail] at hs
    · exact ⟨front, user, back, h.1, h.2.1, h.2.2.1, h.2.2.2.1⟩
  · intro email password hs
    rcases login_cases pe env users email password with h | h | ⟨front, user, back, h⟩
    · rw [h]
    · rw [h]
    · exact absurd h.2.2.2.2 hs
  · intro name email password role hs
    rcases register_cases pe env users name email password role with h | h | h
    · rw [h] at hs
      simp [fail] at hs
    · rw [h] at hs
      simp [fail] at hs
    · exact ⟨_, h.2.2.2.2.1⟩
  · intro name email password role hs
    rcases register_cases pe env users name email password role with h | h | h
    · rw [h]
    · rw [h]
    · exact absurd h.2.2.2.2.2 hs
  · intro token
    exact ⟨validate_fst pe env users token, refresh_fst pe env users token⟩

/-- C10 at a login of the first sample record: only its `lastLogin` changes. -/
theorem auth_frame_witness :
    ∃ front user back, initialUsers = front ++ user :: back
      ∧ (∀ a ∈ front, some a.email ≠ some "admin@cloudcommerce.com")
      ∧ some user.email = some "admin@cloudcommerce.com"
      ∧ (login defaultEnv sampleEnv initialUsers (some "admin@cloudcommerce.com")
          (some "admin123")).1 =
            front ++ { user with lastLogin := some (sampleEnv.iso 0) } :: back :=
  (auth_frame defaultEnv sampleEnv initialUsers).2.1 (some "admin@cloudcommerce.com")
    (some "admin123") (by decide)

/-! ## The shape of the array in every run -/

/-- The initial array is well formed. -/
theorem wellFormed_initial : WellFormed initialUsers := by
  unfold WellFormed
  refine ⟨?_, ?_, ?_, ?_⟩ <;> decide

/-- An array with the ids and e-mails of a well-formed one is well formed. -/
theorem wellFormed_of_map_eq (users after : List User)
    (hid : after.map (fun u => u.id) = users.map (fun u => u.id))
    (hemail : after.map (fun u => u.email) = users.map (fun u => u.email))
    (hwf : WellFormed users) : WellFormed after := by
  obtain ⟨hne, hint, hids, hemails⟩ := hwf
  refine ⟨?_, ?_, ?_, ?_⟩
  · intro h
    rw [h] at hid
    exact hne (List.map_eq_nil_iff.mp hid.symm)
  · intro u hu
    have hmem : u.id ∈ users.map (fun u => u.id) := by
      rw [← hid]
      exact List.mem_map.mpr ⟨u, hu, rfl⟩
    obtain ⟨v, hv, hvu⟩ := List.mem_map.mp hmem
    rw [← hvu]
    exact hint v hv
  · rw [hid]
    exact hids
  · rw [hemail]
    exact hemails

/-- `Math.max` after one more argument. -/
theorem mathMax_append_one (xs : List JsNum) (x : JsNum) :
    mathMax (xs ++ [x]) = (mathMax xs).max x := by
  simp [mathMax, List.foldl_append]

/-- A register answered 201 keeps a well-formed array well formed, and the id of the
appended record is the largest id plus one. -/
theorem register_created_wellFormed (env : Env) (users : List User)
    (name email password : Option String) (role : String) (hwf : WellFormed users)
    (he : truthy email = true)
    (hfind : users.find? (fun u => strEq u.email email) = none) :
    WellFormed (users ++ [newUser env users name email password role])
    ∧ ∃ m, mathMax (users.map (fun u => u.id)) = .fin m
        ∧ (newUser env users name email password role).id = .fin (m + 1)
        ∧ mathMax ((users ++ [newUser env users name email password role]).map
            (fun u => u.id)) = .fin (m + 1) := by
  obtain ⟨hne, hint, hids, hemails⟩ := hwf
  obtain ⟨m, hm, hid, _, hle⟩ := newUser_id env users name email password role hne hint
  refine ⟨⟨by simp, ?_, ?_, ?_⟩, m, hm, hid, ?_⟩
  · intro u hu
    rcases List.mem_append.mp hu with hu | hu
    · exact hint u hu
    · rw [List.mem_singleton.mp hu, hid]
      simp
  · rw [List.map_append, List.nodup_append]
    refine ⟨hids, by simp, ?_⟩
    intro x hx hx2
    simp only [List.map_cons, List.map_nil, List.mem_singleton] at hx2
    obtain ⟨u, hu, hux⟩ := List.mem_map.mp hx
    obtain ⟨n, hn, hnm⟩ := hle u hu
    rw [hx2, hid, hn] at hux
    cases hux
    omega
  · rw [List.map_append, List.nodup_append]
    refine ⟨hemails, by simp, ?_⟩
    intro x hx hx2
    simp only [List.map_cons, List.map_nil, List.mem_singleton] at hx2
    obtain ⟨u, hu, hux⟩ := List.mem_map.mp hx
    have hq := find?_none_forall users _ hfind u hu
    have hem : email = some (str email) := ((truthy_eq_true_iff email).mp he).1
    rw [hx2] at hux
    simp only [newUser] at hux
    simp only [strEq, beq_eq_false_iff_ne, ne_eq] at hq
    exact hq (by rw [hux]; exact hem)
  · rw [List.map_append, List.map_cons, List.map_nil, mathMax_append_one, hm, hid]
    simp [JsNum.max]

/-- Every request keeps a well-formed array well formed. -/
theorem handle_wellFormed (pe : ProcessEnv) (env : Env) (users : List User)
    (req : AuthRequest) (hwf : WellFormed users) :
    WellFormed (handle pe env users req).1 := by
  cases req with
  | login email password =>
      exact wellFormed_of_map_eq users _
        (login_map pe env users email password _ (fun _ _ => rfl))
        (login_map pe env users email password _ (fun _ _ => rfl)) hwf
  | register name email password role =>
      rcases register_cases pe env users name email password role with h | h | h
      · simpa [handle, h] using hwf
      · simpa [handle, h] using hwf
      · simp only [handle, h.2.2.2.2.1]
        exact (register_created_wellFormed env users name email password _ hwf h.2.1
          h.2.2.2.1).1
  | validate token => simpa [handle, validate_fst] using hwf
  | refresh token => simpa [handle, refresh_fst] using hwf
  | logout => simpa [handle, logout] using hwf

/-- Every reachable array is well formed. -/
theorem reachable_wellFormed (pe : ProcessEnv) (users : List User)
    (h : Reachable pe users) : WellFormed users := by
  induction h with
  | init => exact wellFormed_initial
  | step env req _ ih => exact handle_wellFormed pe env _ req ih

/-- Successive registrations with new, pairwise distinct e-mails in a well-formed array:
all are answered 201 and the ids assigned are consecutive from the largest id plus one. -/
theorem serve_registers (pe : ProcessEnv) (rs : List (Env × RegisterBody)) :
    ∀ (users : List User), WellFormed users →
    (∀ r ∈ rs, ¬ absentOrEmpty r.2.name ∧ ¬ absentOrEmpty r.2.email
      ∧ ¬ absentOrEmpty r.2.password) →
    (rs.map (fun r => r.2.email)).Nodup →
    (∀ r ∈ rs, ¬ ∃ u ∈ users, some u.email = r.2.email) →
    ∃ m, mathMax (users.map (fun u => u.id)) = .fin m
      ∧ (serve pe (rs.map (fun r => (r.1, r.2.request))) users).1.map (fun u => u.id) =
          users.map (fun u => u.id) ++
            (List.range rs.length).map (fun (i : Nat) => JsNum.fin (m + 1 + (i : Int)))
      ∧ ∀ resp ∈ (serve pe (rs.map (fun r => (r.1, r.2.request))) users).2,
          resp.status = 201 := by
  induction rs with
  | nil =>
      intro users hwf _ _ _
      obtain ⟨m, hm, _⟩ := mathMax_ids users hwf.1 hwf.2.1
      exact ⟨m, hm, by simp [serve], by simp [serve]⟩
  | cons r rest ih =>
      intro users hwf hfields hnodup hnew
      obtain ⟨env, b⟩ := r
      have hb := hfields (env, b) (List.mem_cons_self _ _)
      have hn : truthy b.name = true := by
        cases h : truthy b.name with
        | true => rfl
        | false => exact absurd ((truthy_eq_false_iff _).mp h) hb.1
      have he : truthy b.email = true := by
        cases h : truthy b.email with
        | true => rfl
        | false => exact absurd ((truthy_eq_false_iff _).mp h) hb.2.1
      have hp : truthy b.password = true := by
        cases h : truthy b.password with
        | true => rfl
        | false => exact absurd ((truthy_eq_false_iff _).mp h) hb.2.2
      have hfind : users.find? (fun u => strEq u.email b.email) = none := by
        cases hf : users.find? (fun u => strEq u.email b.email) with
        | none => rfl
        | some u =>
            exact absurd ((find?_email_isSome users b.email).mp ⟨u, hf⟩)
              (hnew (env, b) (List.mem_cons_self _ _))
      have hreg := register_created pe env users b.name b.email b.password b.role hn he hp hfind
      obtain ⟨hwf2, m, hm, hid, hmax2⟩ := register_created_wellFormed env users b.name
        b.email b.password (b.role.getD "customer") hwf he hfind
      have hnodup2 := List.nodup_cons.mp hnodup
      have hnew2 : ∀ r ∈ rest, ¬ ∃ u ∈ users ++
          [newUser env users b.name b.email b.password (b.role.getD "customer")],
          some u.email = r.2.email := by
        intro r hr hex
        obtain ⟨u, hu, hue⟩ := hex
        rcases List.mem_append.mp hu with hu | hu
        · exact hnew r (List.mem_cons_of_mem _ hr) ⟨u, hu, hue⟩
        · rw [List.mem_singleton.mp hu] at hue
          simp only [newUser] at hue
          have hem : b.email = some (str b.email) := ((truthy_eq_true_iff b.email).mp he).1
          apply hnodup2.1
          simp only [List.map_cons] at *
          rw [hem, hue]
          exact List.mem_map.mpr ⟨r, hr, rfl⟩
      obtain ⟨m2, hm2, hids, hall⟩ := ih _ hwf2
        (fun r hr => hfields r (List.mem_cons_of_mem _ hr)) hnodup2.2 hnew2
      have hmm : m2 = m + 1 := by
        rw [hmax2] at hm2
        cases hm2
        rfl
      subst hmm
      refine ⟨m, hm, ?_, ?_⟩
      · simp only [List.map_cons, serve, handle, RegisterBody.request, hreg]
        simp only [RegisterBody.request] at hids
        rw [hids, List.map_append, List.map_cons, List.map_nil, hid, List.length_cons,
          List.range_succ_eq_map, List.map_cons, List.map_map, List.append_assoc]
        simp only [List.singleton_append, Nat.cast_zero, add_zero]
        congr 2
        apply List.map_congr_left
        intro i _
        simp only [Function.comp, Nat.succ_eq_add_one, Nat.cast_add, Nat.cast_one]
        congr 1
        omega
      · intro resp hresp
        simp only [List.map_cons, serve, handle, RegisterBody.request, hreg,
          List.mem_cons] at hresp
        rcases hresp with hresp | hresp
        · rw [hresp]
        · exact hall resp (by simpa only [RegisterBody.request] using hresp)

/-- C7: in every array reachable from the initial one by login, register, validate,
refresh and logout requests handled one after another, the ids are pairwise distinct and
so are the e-mails; a register answered 201 appends a record whose id is greater than every
existing id; and N successive registrations with non-empty fields and new, pairwise
distinct e-mails are all answered 201 and receive the consecutive ids max + 1, ...,
max + N. -/
theorem store_uniqueness (pe : ProcessEnv) (users : List User) (h : Reachable pe users) :
    ((users.map (fun u => u.id)).Nodup ∧ (users.map (fun u => u.email)).Nodup)
    ∧ (∀ env name email password role,
        (register pe env users name email password role).2.status = 201 →
        ∃ user n, (register pe env users name email password role).1 = users ++ [user]
          ∧ user.id = .fin n ∧ ∀ u ∈ users, ∃ k, u.id = .fin k ∧ k < n)
    ∧ (∀ rs : List (Env × RegisterBody),
        (∀ r ∈ rs, ¬ absentOrEmpty r.2.name ∧ ¬ absentOrEmpty r.2.email
          ∧ ¬ absentOrEmpty r.2.password) →
        (rs.map (fun r => r.2.email)).Nodup →
        (∀ r ∈ rs, ¬ ∃ u ∈ users, some u.email = r.2.email) →
        ∃ m, mathMax (users.map (fun u => u.id)) = .fin m
          ∧ (serve pe (rs.map (fun r => (r.1, r.2.request))) users).1.map (fun u => u.id) =
              users.map (fun u => u.id) ++
                (List.range rs.length).map (fun (i : Nat) => JsNum.fin (m + 1 + (i : Int)))
          ∧ ∀ resp ∈ (serve pe (rs.map (fun r => (r.1, r.2.request))) users).2,
              resp.status = 201) := by
  have hwf := reachable_wellFormed pe users h
  refine ⟨⟨hwf.2.2.1, hwf.2.2.2⟩, ?_, ?_⟩
  · intro env name email password role hs
    rcases register_cases pe env users name email password role with hr | hr | hr
    · rw [hr] at hs
      simp [fail] at hs
    · rw [hr] at hs
      simp [fail] at hs
    · obtain ⟨m, _, hid, _, hle⟩ := newUser_id env users name email password
        (role.getD "customer") hwf.1 hwf.2.1
      refine ⟨_, m + 1, hr.2.2.2.2.1, hid, ?_⟩
      intro u hu
      obtain ⟨k, hk, hkm⟩ := hle u hu
      exact ⟨k, hk, by omega⟩
  · intro rs hfields hnodup hnew
    exact serve_registers pe rs users hwf hfields hnodup hnew

/-- C7 at the array reached by one registration, followed by two more registrations. -/
theorem store_uniqueness_witness :
    ∃ m, mathMax ((handle defaultEnv sampleEnv initialUsers annBody.request).1.map
          (fun u => u.id)) = .fin m
      ∧ (serve defaultEnv
          ([(sampleEnv, bobBody), (sampleEnv, { bobBody with email := some "c@x.com" })].map
            (fun r => (r.1, r.2.request)))
          (handle defaultEnv sampleEnv initialUsers annBody.request).1).1.map
            (fun u => u.id) =
          (handle defaultEnv sampleEnv initialUsers annBody.request).1.map (fun u => u.id) ++
            (List.range 2).map (fun (i : Nat) => JsNum.fin (m + 1 + (i : Int)))
      ∧ ∀ resp ∈ (serve defaultEnv
          ([(sampleEnv, bobBody), (sampleEnv, { bobBody with email := some "c@x.com" })].map
            (fun r => (r.1, r.2.request)))
          (handle defaultEnv sampleEnv initialUsers annBody.request).1).2,
          resp.status = 201 :=
  (store_uniqueness defaultEnv _
    (Reachable.step sampleEnv annBody.request Reachable.init)).2.2
    [(sampleEnv, bobBody), (sampleEnv, { bobBody with email := some "c@x.com" })]
    (by simp [absentOrEmpty, bobBody]) (by simp [bobBody]) (by decide)

/-! ## Tokens minted in a run -/

/-- No request removes a record or changes the id, e-mail, hash, name or role of one. -/
theorem handle_core (pe : ProcessEnv) (env : Env) (users : List User) (req : AuthRequest) :
    ∃ extra, (handle pe env users req).1.map User.core = users.map User.core ++ extra := by
  cases req with
  | login email password =>
      exact ⟨[], by
        simp only [handle, List.append_nil]
        exact login_map pe env users email password User.core (fun _ _ => rfl)⟩
  | register name email password role =>
      rcases register_cases pe env users name email password role with h | h | h
      · exact ⟨[], by simp [handle, h]⟩
      · exact ⟨[], by simp [handle, h]⟩
      · exact ⟨[(newUser env users name email password (role.getD "customer")).core], by
          simp [handle, h.2.2.2.2.1]⟩
  | validate token => exact ⟨[], by simp [handle, validate_fst]⟩
  | refresh token => exact ⟨[], by simp [handle, refresh_fst]⟩
  | logout => exact ⟨[], by simp [handle, logout]⟩

/-- Agreement of a token with the array survives whatever keeps the records. -/
theorem tokenAgrees_of_core (pe : ProcessEnv) (users after : List User) (tok : Token)
    (extra : List (JsNum × String × String × String × String))
    (hcore : after.map User.core = users.map User.core ++ extra)
    (h : TokenAgrees pe users tok) : TokenAgrees pe after tok := by
  obtain ⟨p, user, n, htok, hmem, hid, huid, hemail, hrole⟩ := h
  have hin : user.core ∈ after.map User.core := by
    rw [hcore]
    exact List.mem_append_left _ (List.mem_map.mpr ⟨user, hmem, rfl⟩)
  obtain ⟨v, hv, hvc⟩ := List.mem_map.mp hin
  simp only [User.core, Prod.mk.injEq] at hvc
  exact ⟨p, v, n, htok, hv, hvc.1.trans hid, huid, hemail.trans hvc.2.1.symm,
    hrole.trans hvc.2.2.2.2.symm⟩

/-- The token minted from a record of a well-formed array agrees with the array. -/
theorem tokenAgrees_jwtSign (pe : ProcessEnv) (users : List User) (user : User) (now : Int)
    (hint : ∀ u ∈ users, u.id ≠ .negInf) (hmem : user ∈ users) :
    TokenAgrees pe users
      (jwtSign (claimsOf user) (jwtSecret pe) (expiresIn pe) "cloudcommerce-user-service"
        now) := by
  cases hid : user.id with
  | negInf => exact absurd hid (hint user hmem)
  | fin n =>
      exact ⟨_, user, n, rfl, hmem, hid, by simp [claimsOf, hid, JsNum.toJSON], rfl, rfl⟩

/-- Validate mints no token. -/
theorem validate_token? (pe : ProcessEnv) (env : Env) (users : List User)
    (token : Option Token) : (validate pe env users token).2.token? = none := by
  have hcatch : ∀ error, (validateCatch users error).2.token? = none := by
    intro error
    unfold validateCatch
    split
    · rfl
    · split <;> rfl
  unfold validate
  split
  · rfl
  · split
    · split
      · rfl
      · split
        · exact hcatch _
        · split
          · exact hcatch _
          · rfl
    · exact hcatch _

/-- A token minted by refresh is made from a record of the array. -/
theorem refresh_token? (pe : ProcessEnv) (env : Env) (users : List User)
    (token : Option Token) (tok : Token)
    (h : (refresh pe env users token).2.token? = some tok) :
    ∃ user ∈ users, tok = jwtSign (claimsOf user) (jwtSecret pe) (expiresIn pe)
      "cloudcommerce-user-service" env.now := by
  unfold refresh at h
  split at h
  · simp [fail, Response.token?] at h
  · split at h
    · simp [Response.token?] at h
    · split at h
      · simp [fail, Response.token?] at h
      · rename_i user hfind
        simp only [Response.token?, Option.some.injEq] at h
        exact ⟨user, List.mem_of_find?_eq_some hfind, h.symm⟩

/-- A token minted by login is made from a record of the array. -/
theorem login_token? (pe : ProcessEnv) (env : Env) (users : List User)
    (email password : Option String) (tok : Token)
    (h : (login pe env users email password).2.token? = some tok) :
    ∃ user ∈ users, tok = jwtSign (claimsOf user) (jwtSecret pe) (expiresIn pe)
      "cloudcommerce-user-service" env.now := by
  by_cases he : truthy email = true
  · by_cases hp : truthy password = true
    · cases hfind : users.find? (fun u => strEq u.email email) with
      | none =>
          rw [login_unknown pe env users email password he hp hfind] at h
          simp [fail, Response.token?] at h
      | some user =>
          rw [login_found pe env users email password he hp user hfind] at h
          simp only [Response.token?, Option.some.injEq] at h
          exact ⟨user, List.mem_of_find?_eq_some hfind, h.symm⟩
    · rw [login_missing pe env users email password (Or.inr (by simpa using hp))] at h
      simp [fail, Response.token?] at h
  · rw [login_missing pe env users email password (Or.inl (by simpa using he))] at h
    simp [fail, Response.token?] at h

/-- Whatever token a request mints in a well-formed array agrees with the array the
request leaves. -/
theorem handle_mints (pe : ProcessEnv) (env : Env) (users : List User) (req : AuthRequest)
    (tok : Token) (hwf : WellFormed users)
    (h : (handle pe env users req).2.token? = some tok) :
    TokenAgrees pe (handle pe env users req).1 tok := by
  obtain ⟨extra, hcore⟩ := handle_core pe env users req
  cases req with
  | login email password =>
      obtain ⟨user, hmem, rfl⟩ := login_token? pe env users email password tok h
      exact tokenAgrees_of_core pe users _ _ extra hcore
        (tokenAgrees_jwtSign pe users user env.now hwf.2.1 hmem)
  | register name email password role =>
      rcases register_cases pe env users name email password role with hr | hr | hr
      · simp only [handle] at h
        rw [hr] at h
        simp [fail, Response.token?] at h
      · simp only [handle] at h
        rw [hr] at h
        simp [fail, Response.token?] at h
      · obtain ⟨hn, he, hp, hfind, hstore, _⟩ := hr
        have hwf2 := (register_created_wellFormed env users name email password
          (role.getD "customer") hwf he hfind).1
        simp only [handle] at h ⊢
        rw [register_created pe env users name email password role hn he hp hfind] at h ⊢
        simp only [Response.token?, Option.some.injEq] at h
        rw [← h]
        exact tokenAgrees_jwtSign pe _ _ env.now hwf2.2.1 (by simp)
  | validate token =>
      simp only [handle] at h
      rw [validate_token?] at h
      cases h
  | refresh token =>
      obtain ⟨user, hmem, rfl⟩ := refresh_token? pe env users token tok h
      exact tokenAgrees_of_core pe users _ _ extra hcore
        (tokenAgrees_jwtSign pe users user env.now hwf.2.1 hmem)
  | logout =>
      simp [handle, logout, Response.token?] at h

/-- A run keeps a well-formed array well formed. -/
theorem serve_wellFormed (pe : ProcessEnv) (reqs : List (Env × AuthRequest)) :
    ∀ users, WellFormed users → WellFormed (serve pe reqs users).1 := by
  induction reqs with
  | nil => exact fun _ h => h
  | cons r rest ih =>
      intro users hwf
      obtain ⟨env, req⟩ := r
      exact ih _ (handle_wellFormed pe env users req hwf)

/-- A token that agrees with the array before a run agrees with the array after it. -/
theorem serve_agrees (pe : ProcessEnv) (reqs : List (Env × AuthRequest)) (tok : Token) :
    ∀ users, TokenAgrees pe users tok → TokenAgrees pe (serve pe reqs users).1 tok := by
  induction reqs with
  | nil => exact fun _ h => h
  | cons r rest ih =>
      intro users h
      obtain ⟨env, req⟩ := r
      obtain ⟨extra, hcore⟩ := handle_core pe env users req
      exact ih _ (tokenAgrees_of_core pe users _ tok extra hcore h)

/-- Every token minted in a run from a well-formed array agrees with the array the run
leaves. -/
theorem serve_mints (pe : ProcessEnv) (reqs : List (Env × AuthRequest)) (tok : Token) :
    ∀ users, WellFormed users →
      some tok ∈ (serve pe reqs users).2.map Response.token? →
      TokenAgrees pe (serve pe reqs users).1 tok := by
  induction reqs with
  | nil =>
      intro users _ h
      simp [serve] at h
  | cons r rest ih =>
      intro users hwf h
      obtain ⟨env, req⟩ := r
      simp only [serve, List.map_cons, List.mem_cons] at h
      rcases h with h | h
      · exact serve_agrees pe rest tok _ (handle_mints pe env users req tok hwf h.symm)
      · exact ih _ (handle_wellFormed pe env users req hwf) h

/-- The array a run leaves when it starts from a reachable array is reachable. -/
theorem serve_reachable (pe : ProcessEnv) (reqs : List (Env × AuthRequest)) :
    ∀ users, Reachable pe users → Reachable pe (serve pe reqs users).1 := by
  induction reqs with
  | nil => exact fun _ h => h
  | cons r rest ih =>
      intro users h
      obtain ⟨env, req⟩ := r
      exact ih _ (Reachable.step env req h)

/-- A run of two lists of requests is the run of the second after the run of the first. -/
theorem serve_append (pe : ProcessEnv) (first second : List (Env × AuthRequest)) :
    ∀ users, (serve pe (first ++ second) users).1 =
      (serve pe second (serve pe first users).1).1 := by
  induction first with
  | nil => exact fun _ => rfl
  | cons r rest ih =>
      intro users
      obtain ⟨env, req⟩ := r
      exact ih _

/-- The reachable arrays are exactly those that runs from the initial array leave. -/
theorem reachable_iff_serve (pe : ProcessEnv) (users : List User) :
    Reachable pe users ↔ ∃ reqs, (serve pe reqs initialUsers).1 = users := by
  constructor
  · intro h
    induction h with
    | init => exact ⟨[], rfl⟩
    | step env req _ ih =>
        obtain ⟨reqs, hreqs⟩ := ih
        refine ⟨reqs ++ [(env, req)], ?_⟩
        rw [serve_append, hreqs]
        rfl
  · rintro ⟨reqs, rfl⟩
    exact serve_reachable pe reqs _ Reachable.init

/-- A record id that is strictly equal to an integer is that integer. -/
theorem eq_fin_of_strictEq (id : JsNum) (n : Int) (h : id.strictEq (some n) = true) :
    id = .fin n := by
  cases id with
  | negInf => simp [JsNum.strictEq] at h
  | fin a =>
      have : a = n := by simpa [JsNum.strictEq] using h
      rw [this]

/-- In a well-formed array, refresh of a token that agrees with a record is answered 200
with a token that carries the claims of the token presented. -/
theorem refresh_of_agrees (pe : ProcessEnv) (env : Env) (users : List User) (p : Payload)
    (user : User) (n : Int) (hwf : WellFormed users) (hmem : user ∈ users)
    (hid : user.id = .fin n) (huid : p.userId = some n) (hemail : p.email = user.email)
    (hrole : p.role = user.role) :
    (∀ other ∈ users, other.id = user.id → other = user)
    ∧ refresh pe env users (some (.signed p (jwtSecret pe))) =
      (users, ⟨200, .session
        (.signed { userId := p.userId, email := p.email, role := p.role, iat := env.now,
                   exp := env.now + expiresIn pe, iss := "cloudcommerce-user-service" }
          (jwtSecret pe))
        (plainView user) "Token refreshed successfully" (env.iso 0)⟩) := by
  have huniq : ∀ other ∈ users, other.id = user.id → other = user :=
    fun other ho h => List.inj_on_of_nodup_map hwf.2.2.1 ho hmem h
  have hfind : users.find? (fun u => u.id.strictEq p.userId) = some user := by
    cases hf : users.find? (fun u => u.id.strictEq p.userId) with
    | none =>
        have := find?_none_forall users _ hf user hmem
        simp [hid, huid, JsNum.strictEq] at this
    | some v =>
        have hv : v.id.strictEq p.userId = true := by simpa using List.find?_some hf
        rw [huid] at hv
        have hvid := eq_fin_of_strictEq v.id n hv
        rw [huniq v (List.mem_of_find?_eq_some hf) (hvid.trans hid.symm)]
  refine ⟨huniq, ?_⟩
  rw [refresh_signed pe env users p user hfind]
  simp [jwtSign, claimsOf, hid, huid, hemail, hrole, JsNum.toJSON]

/-- C11: in the array a run from the initial array leaves (these are the reachable
arrays), every token that a request of the run has minted is signed with the secret and
carries as user id, e-mail and role the id, e-mail and role of a record of the array, the
only record with that id; and refresh of that token there, live or expired, is answered
200, never "user not found", with a new token of the same user id, e-mail and role. -/
theorem minted_tokens_agree (pe : ProcessEnv) (reqs : List (Env × AuthRequest)) (env : Env)
    (tok : Token)
    (hmint : some tok ∈ (serve pe reqs initialUsers).2.map Response.token?) :
    Reachable pe (serve pe reqs initialUsers).1
    ∧ ∃ p user n, tok = .signed p (jwtSecret pe)
      ∧ user ∈ (serve pe reqs initialUsers).1 ∧ user.id = .fin n
      ∧ p.userId = some n ∧ p.email = user.email ∧ p.role = user.role
      ∧ (∀ other ∈ (serve pe reqs initialUsers).1, other.id = user.id → other = user)
      ∧ refresh pe env (serve pe reqs initialUsers).1 (some tok) =
          ((serve pe reqs initialUsers).1, ⟨200, .session
            (.signed { userId := p.userId, email := p.email, role := p.role, iat := env.now,
                       exp := env.now + expiresIn pe, iss := "cloudcommerce-user-service" }
              (jwtSecret pe))
            (plainView user) "Token refreshed successfully" (env.iso 0)⟩) := by
  have hwf := serve_wellFormed pe reqs _ wellFormed_initial
  obtain ⟨p, user, n, htok, hmem, hid, huid, hemail, hrole⟩ :=
    serve_mints pe reqs tok _ wellFormed_initial hmint
  obtain ⟨huniq, href⟩ := refresh_of_agrees pe env _ p user n hwf hmem hid huid hemail hrole
  exact ⟨serve_reachable pe reqs _ Reachable.init, p, user, n, htok, hmem, hid, huid, hemail,
    hrole, huniq, htok ▸ href⟩

/-- C11 at the token minted by the login of the sample run. -/
theorem minted_tokens_agree_witness :
    Reachable defaultEnv (serve defaultEnv sampleRun initialUsers).1
    ∧ ∃ p user n, adminToken = .signed p (jwtSecret defaultEnv)
      ∧ user ∈ (serve defaultEnv sampleRun initialUsers).1 ∧ user.id = .fin n
      ∧ p.userId = some n ∧ p.email = user.email ∧ p.role = user.role
      ∧ (∀ other ∈ (serve defaultEnv sampleRun initialUsers).1,
          other.id = user.id → other = user)
      ∧ refresh defaultEnv sampleEnv (serve defaultEnv sampleRun initialUsers).1
          (some adminToken) =
          ((serve defaultEnv sampleRun initialUsers).1, ⟨200, .session
            (.signed { userId := p.userId, email := p.email, role := p.role,
                       iat := sampleEnv.now, exp := sampleEnv.now + expiresIn defaultEnv,
                       iss := "cloudcommerce-user-service" } (jwtSecret defaultEnv))
            (plainView user) "Token refreshed successfully" (sampleEnv.iso 0)⟩) :=
  minted_tokens_agree defaultEnv sampleRun sampleEnv adminToken (by decide)

/-! ## Pagination of the user list -/

/-- The slice between two natural numbers: drop the first, take the difference. -/
theorem jsSlice_nat {α : Type} (xs : List α) (a b : Nat) :
    jsSlice xs (a : Int) (b : Int) = (xs.drop a).take (b - a) := by
  have ha : ¬ ((a : Int) < 0) := by omega
  have hb : ¬ ((b : Int) < 0) := by omega
  simp only [jsSlice, ha, hb, if_false]
  by_cases hlen : a ≤ xs.length
  · have h1 : (min (a : Int) (xs.length : Int)).toNat = a := by omega
    rw [h1, List.take_eq_take, List.length_drop]
    omega
  · have h1 : xs.drop (min (a : Int) (xs.length : Int)).toNat = [] :=
      List.drop_eq_nil_of_le (by omega)
    have h2 : xs.drop a = [] := List.drop_eq_nil_of_le (by omega)
    rw [h1, h2]
    simp

/-- The model of `Math.ceil(a / b)` is the ceiling of the quotient. -/
theorem mathCeilDiv_eq (a b : Nat) (hb : 0 < b) :
    mathCeilDiv (a : Int) (b : Int) = ⌈(a : ℚ) / (b : ℚ)⌉ := by
  unfold mathCeilDiv
  rw [Int.fdiv_eq_ediv _ (by omega), ← Rat.floor_intCast_div_natCast, ← Int.ceil_neg]
  congr 1
  push_cast
  ring

/-- The first `k` chunks of `limit` elements make up the first `k * limit` elements. -/
theorem flatMap_chunks {α : Type} (xs : List α) (limit k : Nat) :
    (List.range k).flatMap (fun i => (xs.drop (i * limit)).take limit) =
      xs.take (k * limit) := by
  induction k with
  | zero => simp
  | succ k ih =>
      rw [List.range_succ, List.flatMap_append, ih, List.flatMap_singleton, Nat.succ_mul,
        List.take_add]

/-- A positive query parameter is taken as it is. -/
theorem orDefault_pos (n : Nat) (d : Int) (hn : 1 ≤ n) : orDefault (some (n : Int)) d = n := by
  have : ¬ ((n : Int) = 0) := by omega
  simp [orDefault, this]

/-- The users of a page: after the first `(page - 1) * limit` of the filtered list, the
next `limit`. -/
theorem listUsers_users (js : JsString) (env : Env) (users : List DirUser)
    (search : Option String) (page limit : Nat) (hp : 1 ≤ page) (hl : 1 ≤ limit) :
    (listUsers js env users (some (page : Int)) (some (limit : Int)) search).users =
      ((filterUsers js users search).drop ((page - 1) * limit)).take limit := by
  have h1 : ((page : Int) - 1) * (limit : Int) = (((page - 1) * limit : Nat) : Int) := by
    push_cast [Nat.cast_sub hp]
    ring
  have h2 : ((page : Int) - 1) * (limit : Int) + (limit : Int) =
      (((page - 1) * limit + limit : Nat) : Int) := by
    push_cast [Nat.cast_sub hp]
    ring
  simp only [listUsers, orDefault_pos page 1 hp, orDefault_pos limit 10 hl]
  rw [h2, h1, jsSlice_nat, Nat.add_sub_cancel_left]

/-- The number of pages is the ceiling of the quotient of the filtered length by the
limit. -/
theorem listUsers_totalPages (js : JsString) (env : Env) (users : List DirUser)
    (search : Option String) (page limit : Nat) (hp : 1 ≤ page) (hl : 1 ≤ limit) :
    (listUsers js env users (some (page : Int)) (some (limit : Int)) search).pagination.totalPages
      = ⌈((filterUsers js users search).length : ℚ) / (limit : ℚ)⌉ := by
  simp only [listUsers, orDefault_pos page 1 hp, orDefault_pos limit 10 hl]
  exact mathCeilDiv_eq _ _ hl

/-- An integer is below the ceiling of a quotient of natural numbers exactly when its
product with the divisor is below the dividend. -/
theorem lt_ceil_div_iff (n len limit : Nat) (hl : 1 ≤ limit) :
    (n : Int) < ⌈(len : ℚ) / (limit : ℚ)⌉ ↔ n * limit < len := by
  have hpos : (0 : ℚ) < (limit : ℚ) := by exact_mod_cast hl
  rw [Int.lt_ceil, lt_div_iff₀ hpos]
  constructor
  · intro h
    exact_mod_cast h
  · intro h
    exact_mod_cast h

/-- The ceiling of a quotient of natural numbers, as a number of chunks, covers the
dividend. -/
theorem le_ceil_div_mul (len limit : Nat) (hl : 1 ≤ limit) :
    len ≤ ⌈(len : ℚ) / (limit : ℚ)⌉.toNat * limit := by
  by_contra h
  have hlt : ⌈(len : ℚ) / (limit : ℚ)⌉.toNat * limit < len := not_le.mp h
  have h2 := (lt_ceil_div_iff _ len limit hl).mpr hlt
  have h0 : (0 : Int) ≤ ⌈(len : ℚ) / (limit : ℚ)⌉ := Int.ceil_nonneg (by positivity)
  omega

/-- C12: for a page number and a limit that are at least 1, the list route returns exactly
the elements of the filtered list at the positions from `(page - 1) * limit` up to but
excluding `min (page * limit) length`, in their order and at most `limit` of them;
`totalUsers` is the filtered length and `totalPages` the ceiling of length / limit;
`hasNext` holds exactly when the page is below `totalPages` and `hasPrev` exactly when it
is above 1; and the pages 1 to `totalPages`, one after another, are the filtered list. -/
theorem listUsers_pagination (js : JsString) (env : Env) (users : List DirUser)
    (search : Option String) (page limit : Nat) (hp : 1 ≤ page) (hl : 1 ≤ limit) :
    (listUsers js env users (some (page : Int)) (some (limit : Int)) search).users =
      ((filterUsers js users search).drop ((page - 1) * limit)).take
        (min (page * limit) (filterUsers js users search).length - (page - 1) * limit)
    ∧ (listUsers js env users (some (page : Int)) (some (limit : Int)) search).users.length =
        min (page * limit) (filterUsers js users search).length - (page - 1) * limit
    ∧ (∀ i, i < min (page * limit) (filterUsers js users search).length - (page - 1) * limit →
        (listUsers js env users (some (page : Int)) (some (limit : Int)) search).users[i]? =
          (filterUsers js users search)[(page - 1) * limit + i]?)
    ∧ (listUsers js env users (some (page : Int)) (some (limit : Int)) search).users.length
        ≤ limit
    ∧ (listUsers js env users (some (page : Int)) (some (limit : Int))
        search).pagination.totalUsers = (filterUsers js users search).length
    ∧ (listUsers js env users (some (page : Int)) (some (limit : Int))
        search).pagination.totalPages =
          ⌈((filterUsers js users search).length : ℚ) / (limit : ℚ)⌉
    ∧ ((listUsers js env users (some (page : Int)) (some (limit : Int))
        search).pagination.hasNext = true ↔
          (page : Int) < (listUsers js env users (some (page : Int)) (some (limit : Int))
            search).pagination.totalPages)
    ∧ ((listUsers js env users (some (page : Int)) (some (limit : Int))
        search).pagination.hasPrev = true ↔ 1 < page)
    ∧ (List.range (listUsers js env users (some (page : Int)) (some (limit : Int))
        search).pagination.totalPages.toNat).flatMap
          (fun i => (listUsers js env users (some ((i + 1 : Nat) : Int)) (some (limit : Int))
            search).users) = filterUsers js users search := by
  have husers := listUsers_users js env users search page limit hp hl
  have htotal := listUsers_totalPages js env users search page limit hp hl
  obtain ⟨q, rfl⟩ : ∃ q, page = q + 1 := ⟨page - 1, by omega⟩
  have hmul : (q + 1) * limit = q * limit + limit := Nat.succ_mul q limit
  have hsub : q + 1 - 1 = q := by omega
  rw [hsub] at husers
  rw [hsub, hmul]
  have htake : ((filterUsers js users search).drop (q * limit)).take limit =
      ((filterUsers js users search).drop (q * limit)).take
        (min (q * limit + limit) (filterUsers js users search).length - q * limit) := by
    rw [List.take_eq_take, List.length_drop]
    omega
  have hlen : (listUsers js env users (some ((q + 1 : Nat) : Int)) (some (limit : Int))
      search).users.length =
      min (q * limit + limit) (filterUsers js users search).length - q * limit := by
    rw [husers, List.length_take, List.length_drop]
    omega
  refine ⟨husers.trans htake, hlen, ?_, ?_, rfl, htotal, ?_, ?_, ?_⟩
  · intro i hi
    rw [husers, List.getElem?_take_of_lt (by omega), List.getElem?_drop]
  · rw [hlen]
    omega
  · rw [htotal, lt_ceil_div_iff _ _ _ hl, hmul]
    simp only [listUsers, orDefault_pos (q + 1) 1 hp, orDefault_pos limit 10 hl,
      decide_eq_true_eq]
    constructor
    · intro h
      have h2 : (((q * limit + limit : Nat) : Int)) < (filterUsers js users search).length := by
        push_cast
        push_cast at h
        linarith
      exact_mod_cast h2
    · intro h
      have h2 : (((q * limit + limit : Nat) : Int)) < (filterUsers js users search).length := by
        exact_mod_cast h
      push_cast at h2 ⊢
      linarith
  · simp only [listUsers, orDefault_pos (q + 1) 1 hp, orDefault_pos limit 10 hl,
      decide_eq_true_eq]
    constructor
    · intro h
      by_contra hq
      have hq0 : q = 0 := by omega
      subst hq0
      simp at h
    · intro h
      have hq1 : 1 ≤ q := by omega
      have : (1 : Int) ≤ (q : Int) * (limit : Int) := by
        have h1 : (1 : Int) ≤ (q : Int) := by exact_mod_cast hq1
        have h2 : (1 : Int) ≤ (limit : Int) := by exact_mod_cast hl
        nlinarith
      push_cast
      linarith
  · rw [htotal]
    have hpages : ∀ i : Nat,
        (listUsers js env users (some ((i + 1 : Nat) : Int)) (some (limit : Int)) search).users
          = ((filterUsers js users search).drop (i * limit)).take limit := by
      intro i
      have := listUsers_users js env users search (i + 1) limit (by omega) hl
      rwa [Nat.add_sub_cancel] at this
    simp only [hpages]
    rw [flatMap_chunks]
    exact List.take_of_length_le (le_ceil_div_mul _ _ hl)

/-- C12 at the second page of the three sample users, two to a page. -/
theorem listUsers_pagination_witness :
    (listUsers sampleJs sampleEnv sampleUsers (some ((2 : Nat) : Int)) (some ((2 : Nat) : Int))
        none).users =
      ((filterUsers sampleJs sampleUsers none).drop ((2 - 1) * 2)).take
        (min (2 * 2) (filterUsers sampleJs sampleUsers none).length - (2 - 1) * 2)
    ∧ ((listUsers sampleJs sampleEnv sampleUsers (some ((2 : Nat) : Int))
        (some ((2 : Nat) : Int)) none).pagination.hasPrev = true ↔ 1 < 2) :=
  have h := listUsers_pagination sampleJs sampleEnv sampleUsers none 2 2 (by decide)
    (by decide)
  ⟨h.1, h.2.2.2.2.2.2.2.1⟩

/-! ## Register and login on the arrays the service reaches -/

/-- No record of a reachable array has the empty string as e-mail. -/
theorem reachable_emails (pe : ProcessEnv) (users : List User) (h : Reachable pe users) :
    ∀ u ∈ users, u.email ≠ "" := by
  induction h with
  | init => decide
  | @step users env req _ ih =>
      have hkeep : ∀ after : List User,
          after.map (fun u => u.email) = users.map (fun u => u.email) →
          ∀ u ∈ after, u.email ≠ "" := by
        intro after hmap u hu
        have hmem : u.email ∈ users.map (fun u => u.email) := by
          rw [← hmap]
          exact List.mem_map.mpr ⟨u, hu, rfl⟩
        obtain ⟨v, hv, hvu⟩ := List.mem_map.mp hmem
        rw [← hvu]
        exact ih v hv
      cases req with
      | login email password =>
          exact hkeep _ (login_map pe env users email password _ (fun _ _ => rfl))
      | register name email password role =>
          rcases register_cases pe env users name email password role with hr | hr | hr
          · simpa [handle, hr] using ih
          · simpa [handle, hr] using ih
          · simp only [handle, hr.2.2.2.2.1]
            intro u hu
            rcases List.mem_append.mp hu with hu | hu
            · exact ih u hu
            · rw [List.mem_singleton.mp hu]
              exact ((truthy_eq_true_iff email).mp hr.2.1).2
      | validate token => simpa [handle, validate_fst] using ih
      | refresh token => simpa [handle, refresh_fst] using ih
      | logout => simpa [handle, logout] using ih

/-- C5: in every array the service reaches, register decides in this order.  It answers
400 exactly when name, e-mail or password is absent or empty; otherwise it answers 409
exactly when some record has exactly the requested e-mail; in both cases the array is
unchanged and no token is minted.  Otherwise it answers 201, appends exactly one record
with the given e-mail and name, the given role (customer when none is given) and the hash
of the password, and returns a token whose user id, e-mail and role are those of the new
record. -/
theorem register_outcome (pe : ProcessEnv) (env : Env) (users : List User)
    (name email password role : Option String) (hreach : Reachable pe users) :
    ((absentOrEmpty name ∨ absentOrEmpty email ∨ absentOrEmpty password) ↔
      register pe env users name email password role =
        (users, fail 400 "Name, email, and password are required"))
    ∧ (¬ (absentOrEmpty name ∨ absentOrEmpty email ∨ absentOrEmpty password) →
        ((∃ u ∈ users, some u.email = email) ↔
          register pe env users name email password role =
            (users, fail 409 "User with this email already exists")))
    ∧ (¬ (absentOrEmpty name ∨ absentOrEmpty email ∨ absentOrEmpty password) →
        (¬ ∃ u ∈ users, some u.email = email) →
        ∃ n, register pe env users name email password role =
          (users ++ [{ id := .fin n, email := str email,
                       password := env.bcryptHash (str password), name := str name,
                       role := role.getD "customer", createdAt := some (env.iso 0),
                       lastLogin := none }],
            ⟨201, .session
              (.signed { userId := some n, email := str email, role := role.getD "customer",
                         iat := env.now, exp := env.now + expiresIn pe,
                         iss := "cloudcommerce-user-service" } (jwtSecret pe))
              { id := .fin n, email := str email, name := str name,
                role := role.getD "customer", lastLogin := none,
                createdAt := some (env.iso 0) }
              "User registered successfully" (env.iso 1)⟩)) := by
  have hwf := reachable_wellFormed pe users hreach
  by_cases hmiss : absentOrEmpty name ∨ absentOrEmpty email ∨ absentOrEmpty password
  · have h : truthy name = false ∨ truthy email = false ∨ truthy password = false := by
      simpa only [truthy_eq_false_iff] using hmiss
    simp [hmiss, register_missing pe env users name email password role h]
  · have hn : truthy name = true := by
      cases h : truthy name with
      | true => rfl
      | false => exact absurd (Or.inl ((truthy_eq_false_iff _).mp h)) hmiss
    have he : truthy email = true := by
      cases h : truthy email with
      | true => rfl
      | false => exact absurd (Or.inr (Or.inl ((truthy_eq_false_iff _).mp h))) hmiss
    have hp : truthy password = true := by
      cases h : truthy password with
      | true => rfl
      | false => exact absurd (Or.inr (Or.inr ((truthy_eq_false_iff _).mp h))) hmiss
    cases hfind : users.find? (fun u => strEq u.email email) with
    | some u =>
        have hex : ∃ u ∈ users, some u.email = email :=
          (find?_email_isSome users email).mp ⟨u, hfind⟩
        rw [register_duplicate pe env users name email password role hn he hp u hfind]
        simp [hmiss, hex, fail]
    | none =>
        have hno : ¬ ∃ u ∈ users, some u.email = email := by
          intro hex
          obtain ⟨v, hv⟩ := (find?_email_isSome users email).mpr hex
          rw [hfind] at hv
          cases hv
        rw [register_created pe env users name email password role hn he hp hfind]
        refine ⟨?_, ?_, ?_⟩
        · simp [hmiss, fail]
        · intro _
          simp [hno, fail]
        · intro _ _
          obtain ⟨m, _, hid, _, _⟩ :=
            newUser_id env users name email password (role.getD "customer") hwf.1 hwf.2.1
          have hmax : (mathMax (users.map (fun u => u.id))).addOne = .fin (m + 1) := by
            simpa [newUser] using hid
          refine ⟨m + 1, ?_⟩
          simp [newUser, jwtSign, claimsOf, hmax, JsNum.toJSON]

/-- C5 at the array reached by a login, and the registration of the scenario of the
specification. -/
theorem register_outcome_witness :
    ∃ n, register defaultEnv sampleEnv
        (handle defaultEnv sampleEnv initialUsers
          (.login (some "admin@cloudcommerce.com") (some "admin123"))).1
        (some "Ann") (some "a@x.com") (some "secret1") none =
      ((handle defaultEnv sampleEnv initialUsers
          (.login (some "admin@cloudcommerce.com") (some "admin123"))).1 ++
        [{ id := .fin n, email := "a@x.com",
           password := sampleEnv.bcryptHash "secret1", name := "Ann",
           role := "customer", createdAt := some (sampleEnv.iso 0),
           lastLogin := none }],
        ⟨201, .session
          (.signed { userId := some n, email := "a@x.com", role := "customer",
                     iat := sampleEnv.now, exp := sampleEnv.now + expiresIn defaultEnv,
                     iss := "cloudcommerce-user-service" } (jwtSecret defaultEnv))
          { id := .fin n, email := "a@x.com", name := "Ann", role := "customer",
            lastLogin := none, createdAt := some (sampleEnv.iso 0) }
          "User registered successfully" (sampleEnv.iso 1)⟩) :=
  (register_outcome defaultEnv sampleEnv _ (some "Ann") (some "a@x.com") (some "secret1") none
    (Reachable.step sampleEnv (.login (some "admin@cloudcommerce.com") (some "admin123"))
      Reachable.init)).2.2 (by simp [absentOrEmpty]) (by decide)

/-- C9: in every array the service reaches, a login with a non-empty password whose
e-mail is that of a record is answered 200, whatever the password; the token carries the
id, e-mail and role of the first record with that e-mail, is issued at the clock and
expires the configured lifetime later; the user object consists of the id, e-mail, name
and role of that record and the login time just recorded in it; and the response is the
same when every stored credential hash is blanked, so the hash is nowhere in it. -/
theorem login_success (pe : ProcessEnv) (env : Env) (front back : List User) (user : User)
    (email password : Option String)
    (hreach : Reachable pe (front ++ user :: back)) (hp : ¬ absentOrEmpty password)
    (hfront : ∀ a ∈ front, some a.email ≠ email) (huser : some user.email = email) :
    ∃ n, user.id = .fin n
      ∧ login pe env (front ++ user :: back) email password =
        (front ++ { user with lastLogin := some (env.iso 0) } :: back,
          ⟨200, .session
            (.signed { userId := some n, email := user.email, role := user.role,
                       iat := env.now, exp := env.now + expiresIn pe,
                       iss := "cloudcommerce-user-service" } (jwtSecret pe))
            { id := .fin n, email := user.email, name := user.name, role := user.role,
              lastLogin := some (env.iso 0), createdAt := none }
            "Login successful" (env.iso 1)⟩)
      ∧ (login pe env ((front ++ user :: back).map User.scrub) email password).2 =
          (login pe env (front ++ user :: back) email password).2 := by
  have hwf := reachable_wellFormed pe _ hreach
  have hmem : user ∈ front ++ user :: back := by simp
  have hemail : user.email ≠ "" := reachable_emails pe _ hreach user hmem
  have he2 : truthy email = true := by
    rw [← huser]
    simpa [truthy] using hemail
  have hp2 : truthy password = true := by
    cases h : truthy password with
    | true => rfl
    | false => exact absurd ((truthy_eq_false_iff _).mp h) hp
  obtain ⟨n, hid⟩ : ∃ n, user.id = .fin n := by
    cases h : user.id with
    | negInf => exact absurd h (hwf.2.1 user hmem)
    | fin n => exact ⟨n, rfl⟩
  have hmain := login_split pe env front back user email password he2 hp2 hfront huser
  have hscrub := login_split pe env (front.map User.scrub) (back.map User.scrub)
    user.scrub email password he2 hp2
    (by
      intro a ha
      obtain ⟨b, hb, rfl⟩ := List.mem_map.mp ha
      exact hfront b hb)
    huser
  refine ⟨n, hid, ?_, ?_⟩
  · rw [hmain]
    simp [jwtSign, claimsOf, hid, JsNum.toJSON]
  · rw [List.map_append, List.map_cons, hscrub, hmain]
    simp [User.scrub, claimsOf]

/-- C9 at the second sample record. -/
theorem login_success_witness :
    ∃ n, (initialUsers.get ⟨1, by decide⟩).id = .fin n
      ∧ login defaultEnv sampleEnv initialUsers (some "user@cloudcommerce.com")
          (some "user123") =
        ([initialUsers.get ⟨0, by decide⟩,
          { initialUsers.get ⟨1, by decide⟩ with lastLogin := some (sampleEnv.iso 0) }],
          ⟨200, .session
            (.signed { userId := some n, email := "user@cloudcommerce.com",
                       role := "customer", iat := sampleEnv.now,
                       exp := sampleEnv.now + expiresIn defaultEnv,
                       iss := "cloudcommerce-user-service" } (jwtSecret defaultEnv))
            { id := .fin n, email := "user@cloudcommerce.com", name := "Regular User",
              role := "customer", lastLogin := some (sampleEnv.iso 0), createdAt := none }
            "Login successful" (sampleEnv.iso 1)⟩) :=
  have h := login_success defaultEnv sampleEnv [initialUsers.get ⟨0, by decide⟩] []
    (initialUsers.get ⟨1, by decide⟩) (some "user@cloudcommerce.com") (some "user123")
    Reachable.init (by simp [absentOrEmpty]) (by decide) (by decide)
  h.imp fun _ hn => ⟨hn.1, hn.2.1⟩

/-! ## Register, then validate -/

/-- C8 (as amended): in every array the service reaches, after a register answered 201
under a positive token lifetime for which the issue time (the clock) and the expiry time
(the clock plus the lifetime) of the token are valid JavaScript dates, validate of the
returned token at the same clock reading in the resulting array is answered 200 with the
validation body (valid: true) and the id, e-mail, name and role of the new record, the
role being customer when the request gave none. -/
theorem register_then_validate (pe : ProcessEnv) (env env2 : Env) (users : List User)
    (name email password role : Option String) (hreach : Reachable pe users)
    (hs : (register pe env users name email password role).2.status = 201)
    (httl : 0 < expiresIn pe) (hclock : env2.now = env.now)
    (hiat : validDate env.now = true) (hexp : validDate (env.now + expiresIn pe) = true) :
    ∃ tok n, (register pe env users name email password role).2.token? = some tok
      ∧ (register pe env users name email password role).2.user? =
          some { id := .fin n, email := str email, name := str name,
                 role := role.getD "customer", lastLogin := none,
                 createdAt := some (env.iso 0) }
      ∧ validate pe env2 (register pe env users name email password role).1 (some tok) =
          ((register pe env users name email password role).1,
            ⟨200, .validation
              { id := .fin n, email := str email, name := str name,
                role := role.getD "customer", lastLogin := none, createdAt := none }
              env.now (env.now + expiresIn pe) (env2.iso 0)⟩) := by
  have hwf := reachable_wellFormed pe users hreach
  rcases register_cases pe env users name email password role with hr | hr | hr
  · rw [hr] at hs
    simp [fail] at hs
  · rw [hr] at hs
    simp [fail] at hs
  · obtain ⟨hn, he, hp, hfind, _, _⟩ := hr
    obtain ⟨m, _, hid, _, hle⟩ := newUser_id env users name email password
      (role.getD "customer") hwf.1 hwf.2.1
    have hreg := register_created pe env users name email password role hn he hp hfind
    have hlive : env2.now < env.now + expiresIn pe := by omega
    have hold : users.find? (fun u => u.id.strictEq (some (m + 1))) = none := by
      rw [List.find?_eq_none]
      intro u hu
      obtain ⟨k, hk, hkm⟩ := hle u hu
      have : k ≠ m + 1 := by omega
      simp [hk, JsNum.strictEq, this]
    refine ⟨_, m + 1, by rw [hreg]; rfl, ?_, ?_⟩
    · rw [hreg]
      simp [Response.user?, hid]
    · rw [hreg]
      simp only [jwtSign, claimsOf, hid, JsNum.toJSON]
      rw [validate_live pe env2 _ _ (by simpa using hlive)]
      have hfound : (users ++ [newUser env users name email password
          (role.getD "customer")]).find? (fun u => u.id.strictEq (some (m + 1))) =
          some (newUser env users name email password (role.getD "customer")) := by
        rw [List.find?_append, hold]
        simp [hid, JsNum.strictEq]
      simp only [hfound, plainView, hid, hiat, hexp, Bool.and_self, if_true]
      simp [newUser]

/-- C8 at the initial array and the registration of the scenario of the specification. -/
theorem register_then_validate_witness :
    ∃ tok n, (register defaultEnv sampleEnv initialUsers (some "Ann") (some "a@x.com")
        (some "secret1") none).2.token? = some tok
      ∧ (register defaultEnv sampleEnv initialUsers (some "Ann") (some "a@x.com")
          (some "secret1") none).2.user? =
          some { id := .fin n, email := "a@x.com", name := "Ann", role := "customer",
                 lastLogin := none, createdAt := some (sampleEnv.iso 0) }
      ∧ validate defaultEnv sampleEnv (register defaultEnv sampleEnv initialUsers (some "Ann")
          (some "a@x.com") (some "secret1") none).1 (some tok) =
          ((register defaultEnv sampleEnv initialUsers (some "Ann") (some "a@x.com")
              (some "secret1") none).1,
            ⟨200, .validation
              { id := .fin n, email := "a@x.com", name := "Ann", role := "customer",
                lastLogin := none, createdAt := none }
              sampleEnv.now (sampleEnv.now + expiresIn defaultEnv) (sampleEnv.iso 0)⟩) :=
  register_then_validate defaultEnv sampleEnv sampleEnv initialUsers (some "Ann")
    (some "a@x.com") (some "secret1") none Reachable.init (by decide) (by decide) rfl
    (by decide) (by decide)

/-- C8 (counterexample): in the initial array, whose ids are pairwise distinct, under a
configured lifetime of ten million million seconds the registration of the scenario is
answered 201, and validate of the returned token at the same clock reading in the
resulting array is answered 500 "Token validation failed", not 200. -/
theorem register_then_validate_fails :
    (initialUsers.map (fun u => u.id)).Nodup
    ∧ 0 < expiresIn hugeTtlEnv
    ∧ (register hugeTtlEnv sampleEnv initialUsers annBody.name annBody.email annBody.password
        annBody.role).2.status = 201
    ∧ (validate hugeTtlEnv sampleEnv
        (register hugeTtlEnv sampleEnv initialUsers annBody.name annBody.email
          annBody.password annBody.role).1
        (register hugeTtlEnv sampleEnv initialUsers annBody.name annBody.email
          annBody.password annBody.role).2.token?).2 =
        ⟨500, .failure "Token validation failed" (some "Invalid time value")⟩ := by
  refine ⟨?_, ?_, ?_, ?_⟩ <;> decide

end CloudCommerce
